import Mathlib

/-!
# Execution engine of `process.c`: shallow embedding and verified properties

The C file drives the operating system from one shell process.  The embedding
keeps the shell's own state (environment, working directory, the two global
registries) in a `World` value and threads it explicitly through every
function.  Results of system calls are not computed: they are read from
response queues stored in the `World`, so a theorem quantified over all
worlds is quantified over every outcome of the operating system.

Conventions
* C arrays are functions `Nat → α` together with the C counter that bounds
  their live part (`bg_processes`/`bg_count`, `dir_stack`/`dir_stack_top`,
  `commands`/`cmd_count`, `pids`).
* `fork` returning `0` continues in the child; `exit` and a successful
  `execvp` end the modelled process (`Res.exit`, `Res.exec`).
* an access outside a C array or through a `NULL` pointer is `Res.fault`.
* text written to `stderr` is not modelled; `stdout` is.
-/

namespace Shell

/-! ## Data model -/

/-- Modelled from the spec: the node and redirection tags of `process.h`
(the header is not part of the sources); the constructors are the tag names
the C code compares against. -/
inductive Tok
  | SIMPLE | PIPE | SEP_AND | SEP_OR | SEP_END | SEP_BG | SUBCMD | NONE
  | RED_IN | RED_IN_HERE | RED_OUT | RED_OUT_APP
  deriving DecidableEq, Repr

/-- Modelled from the spec: the scalar fields of the `CMD` structure of
`process.h` that the C code reads.  `argc` is `argv.length`; the arrays
`locVar`/`locVal` of length `nLocal` are the list `locals`. -/
structure CmdInfo where
  type : Tok
  argv : List String
  locals : List (String × String)
  fromType : Tok
  fromFile : String
  toType : Tok
  toFile : String
  deriving DecidableEq, Repr

/-- Modelled from the spec: a `const CMD *` of `process.h`: either `NULL` or
a node with its `left` and `right` pointers. -/
inductive CMD
  | null
  | node (d : CmdInfo) (left right : CMD)
  deriving DecidableEq, Repr

/-- Outcome of one `chdir` call as decided by the operating system: success
(with the working directory the process ends up in) or failure with `errno`. -/
inductive ChdirRes
  | ok (newcwd : String)
  | err (errno : Int)
  deriving DecidableEq, Repr

/-- System calls and status publications performed by the shell process, in
program order. -/
inductive Event
  | publish (status : Int)
  | waitpid (pid : Int) (nohang : Bool)
  | fork
  | pipe
  | chdir (path : String)
  deriving DecidableEq, Repr

/-- State of the shell process together with the pending answers of the
operating system.
* `forkQ`: return values of the next `fork` calls (`-1`, `0`, or a pid);
* `waitQ`: return value and raw status word of the next `waitpid` calls;
* `chdirQ`: outcomes of the next `chdir` calls;
* `errQ`: outcomes of every other checked call (`0` success, otherwise the
  `errno` of the failure).
An exhausted queue answers with a failure. -/
structure World where
  env : String → Option String
  cwd : String
  dir_stack : Nat → String
  dir_stack_top : Int
  bg_processes : Nat → Int
  bg_count : Nat
  forkQ : List Int
  waitQ : List (Int × Int)
  chdirQ : List ChdirRes
  errQ : List Int
  out : List String
  trace : List Event

/-- How a C function of the engine can end: it returns a value, the process
terminates through `exit(code)`, the process image is replaced by `execvp`,
or the behaviour is undefined from the given state on (out-of-bounds or
`NULL` access). -/
inductive Res (α : Type)
  | ret (v : α) (w : World)
  | exit (code : Int) (w : World)
  | exec (w : World)
  | fault (w : World)

/-- Sequencing: continue with `f` when the first computation returns. -/
def Res.bind {α β : Type} (r : Res α) (f : α → World → Res β) : Res β :=
  match r with
  | .ret v w => f v w
  | .exit c w => .exit c w
  | .exec w => .exec w
  | .fault w => .fault w

def BG_PROCESSES_MAX : Nat := 1000
def STACK_DIR_MAX : Int := 1000
def EXIT_FAILURE : Int := 1

/-- Array store `a[i] = v`. -/
def aset {α : Type} (a : Nat → α) (i : Nat) (v : α) : Nat → α :=
  fun k => if k = i then v else a k

/-- `WEXITSTATUS` of `<sys/wait.h>`: bits 8..15 of the status word. -/
def WEXITSTATUS (status : Int) : Int := (status % 65536) / 256

/-! ## System calls -/

/-- A checked system call other than `fork`, `waitpid`, `chdir`: returns `0`
or the `errno` of its failure. -/
def sys (w : World) : Int × World :=
  (w.errQ.headD 1, { w with errQ := w.errQ.tail })

/-- Run up to `n` checked system calls in a row, stopping at the first that
fails; `true` when all succeeded. -/
def sysAll : Nat → World → Bool × World
  | 0, w => (true, w)
  | n + 1, w =>
    match sys w with
    | (e, w1) => if e = 0 then sysAll n w1 else (false, w1)

def getenv (name : String) (w : World) : Option String := w.env name

/-- `setenv(name, value, 1)`: `0` and the binding is stored, or `-1`. -/
def setenv (name value : String) (w : World) : Int × World :=
  match sys w with
  | (e, w1) =>
    if e = 0 then
      (0, { w1 with env := fun k => if k = name then some value else w1.env k })
    else (-1, w1)

/-- `fork()`. -/
def fork (w : World) : Int × World :=
  (w.forkQ.headD (-1), { w with forkQ := w.forkQ.tail, trace := w.trace ++ [Event.fork] })

/-- `waitpid(pid, &status, options)`: the returned value and the status word. -/
def waitpid (pid : Int) (nohang : Bool) (w : World) : (Int × Int) × World :=
  (w.waitQ.headD (-1, 0),
   { w with waitQ := w.waitQ.tail, trace := w.trace ++ [Event.waitpid pid nohang] })

/-- `chdir(path)`: `0` on success, otherwise the `errno` of the failure. -/
def chdir (path : String) (w : World) : Option Int × World :=
  match w.chdirQ.headD (ChdirRes.err 2) with
  | .ok c =>
    (none, { w with cwd := c, chdirQ := w.chdirQ.tail,
                    trace := w.trace ++ [Event.chdir path] })
  | .err e =>
    (some e, { w with chdirQ := w.chdirQ.tail, trace := w.trace ++ [Event.chdir path] })

/-- `getcwd(cwd, sizeof cwd)`: the working directory, or the `errno`. -/
def getcwd (w : World) : Except Int String × World :=
  match sys w with
  | (e, w1) => if e = 0 then (.ok w1.cwd, w1) else (.error e, w1)

/-- `execvp(argv[0], argv)` in a child followed by `exit(EXIT_FAILURE)` when
it returns. -/
def execvp {α : Type} (argv : List String) (w : World) : Res α :=
  match argv with
  | [] => .exit EXIT_FAILURE w
  | _ :: _ =>
    match sys w with
    | (e, w1) => if e = 0 then .exec w1 else .exit EXIT_FAILURE w1

/-! ## Redirection and local variables -/

/-- `handle_redirection`: `0`, or `-1` at the first failing call. -/
def handle_redirection (d : CmdInfo) (w : World) : Int × World :=
  let inp : Bool × World :=
    if d.fromType = Tok.RED_IN then sysAll 2 w          -- open, dup2
    else if d.fromType = Tok.RED_IN_HERE then sysAll 4 w -- mkstemp, write, lseek, dup2
    else (true, w)
  match inp with
  | (false, w1) => (-1, w1)
  | (true, w1) =>
    let outp : Bool × World :=
      if d.toType = Tok.RED_OUT then sysAll 2 w1          -- open, dup2
      else if d.toType = Tok.RED_OUT_APP then sysAll 2 w1 -- open, dup2
      else (true, w1)
    match outp with
    | (false, w2) => (-1, w2)
    | (true, w2) => (0, w2)

/-- Body of the `for` loop of `set_local_vars` over `locVar[i]`, `locVal[i]`. -/
def set_local_vars_loop : List (String × String) → World → Int × World
  | [], w => (0, w)
  | (name, value) :: rest, w =>
    if name = "?" then set_local_vars_loop rest w
    else
      match setenv name value w with
      | (r, w1) => if r = -1 then (-1, w1) else set_local_vars_loop rest w1

def set_local_vars (d : CmdInfo) (w : World) : Int × World :=
  set_local_vars_loop d.locals w

/-! ## Background registry -/

def add_to_background_queue (pid : Int) (w : World) : World :=
  if w.bg_count < BG_PROCESSES_MAX then
    { w with bg_processes := aset w.bg_processes w.bg_count pid,
             bg_count := w.bg_count + 1 }
  else w

/-- Inner loop of `reap_background_processes`:
`for (j = i; j < bg_count - 1; j++) bg_processes[j] = bg_processes[j + 1]`,
with `k` the number of iterations left. -/
def shift_loop : Nat → Nat → (Nat → Int) → (Nat → Int)
  | 0, _, a => a
  | k + 1, j, a => shift_loop k (j + 1) (aset a j (a (j + 1)))

/-- Outer loop of `reap_background_processes`.  `k` bounds the number of
iterations still to run; the loop is entered with `k = bg_count - i`.  On a
removal the C code runs `i--` and the loop header `i++`, so `i` is kept. -/
def reap_loop : Nat → Nat → World → World
  | 0, _, w => w
  | k + 1, i, w =>
    if i < w.bg_count then
      match waitpid (w.bg_processes i) true w with
      | ((pid, _), w1) =>
        if pid > 0 then
          reap_loop k i
            { w1 with bg_processes := shift_loop (w1.bg_count - 1 - i) i w1.bg_processes,
                      bg_count := w1.bg_count - 1 }
        else reap_loop k (i + 1) w1
    else w

def reap_background_processes (w : World) : World :=
  reap_loop w.bg_count 0 w

/-! ## Directory stack and built-in commands -/

/-- `push_directory`: `-1` when the stack is full, else the entry is stored
at the incremented top. -/
def push_directory (dir : String) (w : World) : Int × World :=
  if w.dir_stack_top ≥ STACK_DIR_MAX - 1 then (-1, w)
  else
    (0, { w with dir_stack := aset w.dir_stack (w.dir_stack_top + 1).toNat dir,
                 dir_stack_top := w.dir_stack_top + 1 })

/-- `pop_directory`: `NULL` (`none`) on an empty stack, else the top entry. -/
def pop_directory (w : World) : Option String × World :=
  if w.dir_stack_top < 0 then (none, w)
  else (some (w.dir_stack w.dir_stack_top.toNat),
        { w with dir_stack_top := w.dir_stack_top - 1 })

/-- Entries `dir_stack[top]`, ..., `dir_stack[0]`, each preceded by a blank,
as the loop of `print_directory` writes them. -/
def stack_line (a : Nat → String) : Nat → String
  | 0 => ""
  | k + 1 => " " ++ a k ++ stack_line a k

/-- `print_directory`: nothing when `getcwd` fails. -/
def print_directory (w : World) : World :=
  match getcwd w with
  | (.error _, w1) => w1
  | (.ok cwd, w1) =>
    { w1 with out := w1.out ++ [cwd ++ stack_line w1.dir_stack (w1.dir_stack_top + 1).toNat ++ "\n"] }

def is_builtin (d : CmdInfo) : Bool :=
  match d.argv with
  | [] => false
  | cmd_name :: _ => cmd_name = "cd" || cmd_name = "pushd" || cmd_name = "popd"

/-- `execute_builtin`; `argv[0]` of an empty vector is read as the empty
name, which reaches the final `unknown command` branch. -/
def execute_builtin (d : CmdInfo) (w : World) : Int × World :=
  let cmd_name := d.argv.headD ""
  if cmd_name = "cd" then
    if d.argv.length > 2 then (1, w)
    else
      let target : Option String :=
        match d.argv.get? 1 with
        | some t => some t
        | none => getenv "HOME" w
      match target with
      | none => (1, w)
      | some target_dir =>
        match chdir target_dir w with
        | (some saved_errno, w1) => (saved_errno, w1)
        | (none, w1) => (0, w1)
  else if cmd_name = "pushd" then
    if d.argv.length ≠ 2 then (1, w)
    else
      match getcwd w with
      | (.error saved_errno, w1) => (saved_errno, w1)
      | (.ok cwd, w1) =>
        match push_directory cwd w1 with
        | (r, w2) =>
          if r ≠ 0 then (1, w2)
          else
            match chdir (d.argv.getD 1 "") w2 with
            | (some saved_errno, w3) => (saved_errno, (pop_directory w3).2)
            | (none, w3) => (0, print_directory w3)
  else if cmd_name = "popd" then
    if d.argv.length ≠ 1 then (1, w)
    else
      match pop_directory w with
      | (none, w1) => (1, w1)
      | (some dir, w1) =>
        match chdir dir w1 with
        | (some saved_errno, w2) => (saved_errno, w2)
        | (none, w2) => (0, print_directory w2)
  else (1, w)

/-- `update_exit_status`: format the status in decimal and bind it to `?`
(a failing `setenv` is only reported). -/
def update_exit_status (status : Int) (w : World) : World :=
  (setenv "?" (toString status) { w with trace := w.trace ++ [Event.publish status] }).2

/-! ## Pipelines -/

/-- First loop of `process_pipeline`:
`while (current != NULL && cmd_count < 1024)`. -/
def collect_loop : CMD → (Nat → CMD) → Nat → World → Res ((Nat → CMD) × Nat)
  | .null, commands, cmd_count, w => .ret (commands, cmd_count) w
  | .node d l r, commands, cmd_count, w =>
    if cmd_count < 1024 then
      if d.type = Tok.PIPE then
        if r = CMD.null then .exit EXIT_FAILURE w
        else collect_loop l (aset commands cmd_count r) (cmd_count + 1) w
      else .ret (aset commands cmd_count (.node d l r), cmd_count + 1) w
    else .ret (commands, cmd_count) w

/-- Second loop of `process_pipeline`: swap `commands[i]` and
`commands[cmd_count - i - 1]` for `i < cmd_count / 2`; `k` iterations left. -/
def reverse_loop : Nat → Nat → Nat → (Nat → CMD) → (Nat → CMD)
  | 0, _, _, a => a
  | k + 1, i, n, a =>
    reverse_loop k (i + 1) n (aset (aset a i (a (n - i - 1))) (n - i - 1) (a i))

/-- Child side of one pipeline stage (after `fork` returned `0`); `prev_fd`
tells whether `prev_fd != -1`, `not_last` whether `i < cmd_count - 1`. -/
def pipeline_child {α : Type} (d : CmdInfo) (prev_fd not_last : Bool) (w : World) : Res α :=
  match (if prev_fd then sysAll 1 w else (true, w)) with     -- dup2(prev_fd, 0)
  | (false, w1) => .exit EXIT_FAILURE w1
  | (true, w1) =>
    match (if not_last then sysAll 1 w1 else (true, w1)) with -- dup2(pipefd[1], 1)
    | (false, w2) => .exit EXIT_FAILURE w2
    | (true, w2) =>
      match set_local_vars d w2 with
      | (r3, w3) =>
        if r3 = -1 then .exit EXIT_FAILURE w3
        else
          match handle_redirection d w3 with
          | (r4, w4) =>
            if r4 = -1 then .exit EXIT_FAILURE w4
            else if is_builtin d then
              match execute_builtin d w4 with
              | (builtin_status, w5) => .exit builtin_status w5
            else execvp d.argv w4

/-- Third loop of `process_pipeline` (`for (i = 0; i < cmd_count; i++)`),
with `k` iterations left; returns the array `pids`, declared `pids[1000]`. -/
def spawn_loop : Nat → Nat → Nat → (Nat → CMD) → Bool → (Nat → Int) → World → Res (Nat → Int)
  | 0, _, _, _, _, pids, w => .ret pids w
  | k + 1, i, cmd_count, commands, prev_fd, pids, w =>
    let piped : Res Unit :=
      if i + 1 < cmd_count then
        match sys w with
        | (e, w1) =>
          if e = 0 then .ret () { w1 with trace := w1.trace ++ [Event.pipe] }
          else .exit EXIT_FAILURE w1
      else .ret () w
    piped.bind fun _ w1 =>
      match commands i with
      | .null => .exit EXIT_FAILURE w1
      | .node d _ _ =>
        if d.argv = [] then .exit EXIT_FAILURE w1
        else
          match fork w1 with
          | (pid, w2) =>
            if pid = -1 then .exit EXIT_FAILURE w2
            else if pid = 0 then
              pipeline_child d prev_fd (decide (i + 1 < cmd_count)) w2
            else if i < 1000 then
              spawn_loop k (i + 1) cmd_count commands (decide (i + 1 < cmd_count))
                (aset pids i pid) w2
            else .fault w2

/-- Fourth loop of `process_pipeline`: wait for `pids[i]`, keep the last
non-zero `STATUS`; `k` iterations left. -/
def wait_loop (STATUS : Int → Int) : Nat → Nat → (Nat → Int) → Int → World → Int × World
  | 0, _, _, exit_status, w => (exit_status, w)
  | k + 1, i, pids, exit_status, w =>
    match waitpid (pids i) false w with
    | ((r, status), w1) =>
      if r = -1 then wait_loop STATUS k (i + 1) pids exit_status w1
      else
        let child_exit_status := STATUS status
        if child_exit_status ≠ 0 then wait_loop STATUS k (i + 1) pids child_exit_status w1
        else wait_loop STATUS k (i + 1) pids exit_status w1

/-- `process_pipeline`; the macro `STATUS` of `process.h` is a parameter. -/
def process_pipeline (STATUS : Int → Int) (cmd : CMD) (w : World) : Res Int :=
  if cmd = CMD.null then .ret 0 w
  else
    (collect_loop cmd (fun _ => CMD.null) 0 w).bind fun cc w1 =>
      let cmd_count := cc.2
      let commands := reverse_loop (cmd_count / 2) 0 cmd_count cc.1
      (spawn_loop cmd_count 0 cmd_count commands false (fun _ => 0) w1).bind fun pids w2 =>
        match wait_loop STATUS cmd_count 0 pids 0 w2 with
        | (exit_status, w3) => .ret exit_status (update_exit_status exit_status w3)

/-! ## Tree interpreter -/

/-- `process_subcommand`; `inner` is the evaluation `process(cmd->left)` that
the child performs. -/
def process_subcommand (d : CmdInfo) (inner : World → Res Int) (w : World) : Res Int :=
  match fork w with
  | (pid, w1) =>
    if pid = -1 then .ret (-1) w1
    else if pid = 0 then
      match set_local_vars d w1 with
      | (r2, w2) =>
        if r2 = -1 then .exit EXIT_FAILURE w2
        else
          match handle_redirection d w2 with
          | (r3, w3) =>
            if r3 = -1 then .exit EXIT_FAILURE w3
            else (inner w3).bind fun s w4 => .exit s w4
    else
      match waitpid pid false w1 with
      | ((r, status), w2) =>
        if r = -1 then .ret (-1) w2
        else .ret (WEXITSTATUS status) (update_exit_status (WEXITSTATUS status) w2)

/-- Child side of a simple command: bind locals, redirect, `execvp`. -/
def simple_child {α : Type} (d : CmdInfo) (w : World) : Res α :=
  match set_local_vars d w with
  | (r1, w1) =>
    if r1 = -1 then .exit EXIT_FAILURE w1
    else
      match handle_redirection d w1 with
      | (r2, w2) => if r2 = -1 then .exit EXIT_FAILURE w2 else execvp d.argv w2

/-- Tail of `process` after the `switch`: a built-in runs in the shell, any
other command is forked and waited for. -/
def process_simple (d : CmdInfo) (w : World) : Res Int :=
  if is_builtin d then
    match set_local_vars d w with
    | (r1, w1) =>
      if r1 = -1 then .ret (-1) w1
      else
        match handle_redirection d w1 with
        | (r2, w2) =>
          if r2 = -1 then .ret (-1) w2
          else
            match execute_builtin d w2 with
            | (status, w3) => .ret status (update_exit_status status w3)
  else
    match fork w with
    | (pid, w1) =>
      if pid = -1 then .ret (-1) w1
      else if pid = 0 then simple_child d w1
      else
        match waitpid pid false w1 with
        | ((r, status), w2) =>
          if r = -1 then .ret (-1) w2
          else .ret (WEXITSTATUS status) (update_exit_status (WEXITSTATUS status) w2)

/-- Last branch of `end_background`: fork one detached child. -/
def background_spawn (d : CmdInfo) (w : World) : Res Unit :=
  match fork w with
  | (pid, w1) =>
    if pid = -1 then .ret () w1
    else if pid = 0 then simple_child d w1
    else .ret () (add_to_background_queue pid w1)

mutual

/-- `process`. -/
def process (STATUS : Int → Int) : CMD → World → Res Int
  | .null, w => .ret 0 (reap_background_processes w)
  | .node d l r, w =>
    let w0 := reap_background_processes w
    if d.type = Tok.PIPE then process_pipeline STATUS (.node d l r) w0
    else if d.type = Tok.SEP_END then
      (process STATUS l w0).bind fun _ w1 => process STATUS r w1
    else if d.type = Tok.SEP_BG then
      (end_background STATUS l w0).bind fun _ w1 =>
        if r ≠ CMD.null then process STATUS r w1 else .ret 0 w1
    else if d.type = Tok.SEP_AND then
      (process STATUS l w0).bind fun status w1 =>
        if status = 0 then process STATUS r w1
        else .ret status (update_exit_status status w1)
    else if d.type = Tok.SEP_OR then
      (process STATUS l w0).bind fun status w1 =>
        if status ≠ 0 then process STATUS r w1
        else .ret status (update_exit_status status w1)
    else if d.type = Tok.SUBCMD then process_subcommand d (process STATUS l) w0
    else process_simple d w0

/-- `end_background`; it dereferences `cmd` without a `NULL` test. -/
def end_background (STATUS : Int → Int) : CMD → World → Res Unit
  | .null, w => .fault w
  | .node d l r, w =>
    if d.type = Tok.SEP_BG then
      (end_background STATUS l w).bind fun _ w1 =>
        if r ≠ CMD.null then end_background STATUS r w1 else .ret () w1
    else if d.type = Tok.SEP_END then
      (process STATUS l w).bind fun _ w1 =>
        if r ≠ CMD.null then end_background STATUS r w1 else .ret () w1
    else background_spawn d w

end

/-! ## Observations used to state the properties -/

/-- Globals as the C file initialises them (`dir_stack_top = -1`,
`bg_count = 0`), an empty environment, working directory `/`, and no pending
answer of the operating system. -/
def World.start : World :=
  { env := fun _ => none, cwd := "/", dir_stack := fun _ => "", dir_stack_top := -1,
    bg_processes := fun _ => 0, bg_count := 0, forkQ := [], waitQ := [], chdirQ := [],
    errQ := [], out := [], trace := [] }

/-- A node without redirection and without local variables. -/
def CMD.mk (t : Tok) (argv : List String) (l r : CMD) : CMD :=
  .node ⟨t, argv, [], Tok.NONE, "", Tok.NONE, ""⟩ l r

/-- A simple command with the given argument vector. -/
def CMD.simple (argv : List String) : CMD := CMD.mk Tok.SIMPLE argv .null .null

/-- The returned value, when the function returned. -/
def Res.val {α : Type} : Res α → Option α
  | .ret v _ => some v
  | _ => none

/-- The state of the process when the function ended. -/
def Res.world {α : Type} : Res α → World
  | .ret _ w => w
  | .exit _ w => w
  | .exec w => w
  | .fault w => w

/-- Whether the function ended in undefined behaviour. -/
def Res.faulted {α : Type} : Res α → Bool
  | .fault _ => true
  | _ => false

/-- The statuses handed to `update_exit_status`, in program order. -/
def published (t : List Event) : List Int :=
  t.filterMap fun e => match e with
    | Event.publish s => some s
    | _ => none

/-- Value of the last pair of `ls` whose name is `name`, if there is one. -/
def last_binding (name : String) : List (String × String) → Option String
  | [] => none
  | (n, v) :: rest =>
    match last_binding name rest with
    | some x => some x
    | none => if n = name then some v else none

/-- Number of local bindings for which `set_local_vars` calls `setenv`. -/
def settable (ls : List (String × String)) : Nat :=
  (ls.filter fun p => p.1 ≠ "?").length

/-- A command with four local bindings, one of them to the reserved name. -/
def demo_locals : CmdInfo :=
  ⟨Tok.SIMPLE, ["env"], [("A", "1"), ("?", "9"), ("A", "2"), ("B", "3")],
   Tok.NONE, "", Tok.NONE, ""⟩

/-- The entries `a[i]`, `a[i+1]`, ..., `a[i+k-1]` of an array. -/
def slice {α : Type} (a : Nat → α) : Nat → Nat → List α
  | _, 0 => []
  | i, k + 1 => a i :: slice a (i + 1) k

/-- The background registry: the live part `bg_processes[0 .. bg_count)`. -/
def registry (w : World) : List Int := slice w.bg_processes 0 w.bg_count

/-- The entries that stay tracked: entry number `n` is dropped exactly when
the `n`-th answer to `waitpid(..., WNOHANG)` is a positive pid. -/
def survivors : List Int → List (Int × Int) → List Int
  | [], _ => []
  | p :: ps, q =>
    if (q.headD (-1, 0)).1 > 0 then survivors ps q.tail else p :: survivors ps q.tail

/-- The directory stack, bottom first: the live part
`dir_stack[0 .. dir_stack_top]`. -/
def dirs (w : World) : List String := slice w.dir_stack 0 (w.dir_stack_top + 1).toNat

/-- The built-in command `pushd dir`. -/
def pushd_cmd (dir : String) : CmdInfo :=
  ⟨Tok.SIMPLE, ["pushd", dir], [], Tok.NONE, "", Tok.NONE, ""⟩

/-- The built-in command `popd`. -/
def popd_cmd : CmdInfo := ⟨Tok.SIMPLE, ["popd"], [], Tok.NONE, "", Tok.NONE, ""⟩

/-- Run built-in commands one after the other through `execute_builtin`,
collecting their statuses. -/
def run_builtins : List CmdInfo → World → List Int × World
  | [], w => ([], w)
  | d :: ds, w =>
    match execute_builtin d w with
    | (s, w1) =>
      match run_builtins ds w1 with
      | (ss, w2) => (s :: ss, w2)

/-- The left-nested tree of `PIPE` nodes above the leftmost command `c0`;
the right branches are listed from the root downwards, each with the
remaining fields of its `PIPE` node. -/
def pipe_spine (c0 : CMD) : List (CmdInfo × CMD) → CMD
  | [] => c0
  | (d, c) :: rest => .node { d with type := Tok.PIPE } (pipe_spine c0 rest) c

/-- The tree of the pipeline `c0 | c1 | ... | cn`, the commands after the
first listed in textual order. -/
def pipe_tree (c0 : CMD) (cs : List (CmdInfo × CMD)) : CMD := pipe_spine c0 cs.reverse

/-- A stage that passes the validity test of the spawn loop: a node with a
non-empty argument vector. -/
def valid_stage : CMD → Bool
  | .null => false
  | .node d _ _ => d.argv ≠ []

/-- The `pipe` and `fork` calls of the spawn loop for `k` remaining stages:
a `pipe` before the `fork` of every stage but the last. -/
def spawn_events : Nat → List Event
  | 0 => []
  | 1 => [Event.fork]
  | k + 2 => Event.pipe :: Event.fork :: spawn_events (k + 1)

/-- A pipeline of 1001 simple commands `true | true | ... | true`. -/
def long_pipeline : CMD :=
  pipe_tree (CMD.simple ["true"])
    (List.replicate 1000 (⟨Tok.PIPE, [], [], Tok.NONE, "", Tok.NONE, ""⟩, CMD.simple ["true"]))

/-- A state in which the 1000 `pipe` calls and the 1001 `fork` calls of
`long_pipeline` succeed (children `2 .. 1002`) and every child is waited for
successfully with exit status `0`. -/
def long_pipeline_world : World :=
  { World.start with
      errQ := List.replicate 1000 0,
      forkQ := (List.range 1001).map (fun (i : Nat) => (i : Int) + 2),
      waitQ := (List.range 1001).map (fun (i : Nat) => ((i : Int) + 2, (0 : Int))) }

/-- The scalar fields of a `PIPE` node without redirection or local
variables. -/
def pipe_info : CmdInfo := ⟨Tok.PIPE, [], [], Tok.NONE, "", Tok.NONE, ""⟩

/-- The pipeline `a | b | c`. -/
def abc_pipeline : CMD :=
  pipe_tree (CMD.simple ["a"]) [(pipe_info, CMD.simple ["b"]), (pipe_info, CMD.simple ["c"])]

/-- Number of stages the first loop of `process_pipeline` finds along the
spine of a tree (before its cut-off at 1024). -/
def stage_count : CMD → Nat
  | .null => 0
  | .node d l _ => if d.type = Tok.PIPE then stage_count l + 1 else 1

mutual

/-- Trees on which `process` stays within defined behaviour: every pipeline
it runs has at most 1000 stages (the size of `pids`), and every subtree it
hands to `end_background` satisfies `bg_defined`. -/
def proc_defined : CMD → Bool
  | .null => true
  | .node d l r =>
    if d.type = Tok.PIPE then decide (stage_count l + 1 ≤ 1000)
    else if d.type = Tok.SEP_END then proc_defined l && proc_defined r
    else if d.type = Tok.SEP_BG then bg_defined l && proc_defined r
    else if d.type = Tok.SEP_AND then proc_defined l && proc_defined r
    else if d.type = Tok.SEP_OR then proc_defined l && proc_defined r
    else if d.type = Tok.SUBCMD then proc_defined l
    else true

/-- Trees on which `end_background` stays within defined behaviour: it is
never handed an absent node (it dereferences its argument). -/
def bg_defined : CMD → Bool
  | .null => false
  | .node d l r =>
    if d.type = Tok.SEP_BG then bg_defined l && (decide (r = CMD.null) || bg_defined r)
    else if d.type = Tok.SEP_END then proc_defined l && (decide (r = CMD.null) || bg_defined r)
    else true

end

/-! # Verified properties -/

/-! ## Local variable bindings -/

theorem set_local_vars_loop_status (ls : List (String × String)) (w : World) :
    (set_local_vars_loop ls w).2.env "?" = w.env "?" := by
  induction ls generalizing w with
  | nil => rfl
  | cons p rest ih =>
    obtain ⟨name, value⟩ := p
    by_cases h : name = "?"
    · simp [set_local_vars_loop, h, ih]
    · have hq : ¬ ("?" = name) := fun e => h e.symm
      simp only [set_local_vars_loop, h, if_false, setenv, sys]
      split_ifs <;> simp [ih, hq]

theorem set_local_vars_loop_ok (ls : List (String × String)) (w : World) (rest : List Int)
    (h : w.errQ = List.replicate (settable ls) 0 ++ rest) :
    (set_local_vars_loop ls w).1 = 0 ∧ (set_local_vars_loop ls w).2.errQ = rest ∧
    ∀ name, name ≠ "?" → (set_local_vars_loop ls w).2.env name =
      match last_binding name ls with
      | some v => some v
      | none => w.env name := by
  induction ls generalizing w with
  | nil => simpa [set_local_vars_loop, settable, last_binding] using h
  | cons p tl ih =>
    obtain ⟨n, v⟩ := p
    by_cases hn : n = "?"
    · subst hn
      have h' : w.errQ = List.replicate (settable tl) 0 ++ rest := by
        simpa [settable] using h
      obtain ⟨h1, h2, h3⟩ := ih w h'
      refine ⟨by simpa [set_local_vars_loop] using h1, by simpa [set_local_vars_loop] using h2, ?_⟩
      intro name hname
      have hne : ¬ ("?" = name) := fun e => hname e.symm
      simp only [set_local_vars_loop, if_true, last_binding, hne, if_false]
      rw [h3 name hname]
      cases last_binding name tl <;> rfl
    · have h' : w.errQ = 0 :: (List.replicate (settable tl) 0 ++ rest) := by
        simpa [settable, hn, List.replicate_succ] using h
      obtain ⟨h1, h2, h3⟩ := ih
        { w with errQ := List.replicate (settable tl) 0 ++ rest,
                 env := fun k => if k = n then some v else w.env k } rfl
      have e : set_local_vars_loop ((n, v) :: tl) w = set_local_vars_loop tl
          { w with errQ := List.replicate (settable tl) 0 ++ rest,
                   env := fun k => if k = n then some v else w.env k } := by
        simp [set_local_vars_loop, hn, setenv, sys, h']
      rw [e]
      refine ⟨h1, h2, ?_⟩
      intro name hname
      rw [h3 name hname]
      simp only [last_binding]
      cases last_binding name tl with
      | some x => rfl
      | none =>
        by_cases hk : n = name
        · simp [hk]
        · have hk' : ¬ (name = n) := fun e => hk e.symm
          simp [hk, hk']

/-- C7. `set_local_vars` never changes the value bound to `?`, whatever the
outcome of the `setenv` calls.  When every `setenv` it performs succeeds, it
returns `0` (bindings to `?` are skipped, not failed), and every other name is
bound to the value of its last occurrence in the local list, names that do not
occur keeping their value. -/
theorem set_local_vars_reserved_status (d : CmdInfo) (w : World) :
    getenv "?" (set_local_vars d w).2 = getenv "?" w ∧
    ∀ rest, w.errQ = List.replicate (settable d.locals) 0 ++ rest →
      (set_local_vars d w).1 = 0 ∧
      ∀ name, name ≠ "?" → getenv name (set_local_vars d w).2 =
        match last_binding name d.locals with
        | some v => some v
        | none => getenv name w := by
  refine ⟨set_local_vars_loop_status d.locals w, ?_⟩
  intro rest h
  obtain ⟨h1, _, h3⟩ := set_local_vars_loop_ok d.locals w rest h
  exact ⟨h1, h3⟩

/-- C7, instance: with three successful `setenv` calls the bindings
`A=1 ?=9 A=2 B=3` return `0`, leave `?` at its old value `0`, and bind `A` to
`2` and `B` to `3`. -/
theorem set_local_vars_reserved_status_witness :
    ({ World.start with errQ := [0, 0, 0], env := fun k => if k = "?" then some "0" else none }
        : World).errQ = List.replicate (settable demo_locals.locals) 0 ++ []
    ∧ (set_local_vars demo_locals
        { World.start with errQ := [0, 0, 0],
                           env := fun k => if k = "?" then some "0" else none }).1 = 0
    ∧ getenv "?" (set_local_vars demo_locals
        { World.start with errQ := [0, 0, 0],
                           env := fun k => if k = "?" then some "0" else none }).2 = some "0"
    ∧ getenv "A" (set_local_vars demo_locals
        { World.start with errQ := [0, 0, 0],
                           env := fun k => if k = "?" then some "0" else none }).2 = some "2" :=
  ⟨by decide,
   ((set_local_vars_reserved_status demo_locals _).2 [] (by decide)).1,
   (set_local_vars_reserved_status demo_locals _).1,
   ((set_local_vars_reserved_status demo_locals _).2 [] (by decide)).2 "A" (by decide)⟩

/-! ## Background registry: reaping -/

theorem slice_length {α : Type} (a : Nat → α) (i k : Nat) : (slice a i k).length = k := by
  induction k generalizing i with
  | zero => rfl
  | succ k ih => simp [slice, ih]

theorem slice_append {α : Type} (a : Nat → α) (i m k : Nat) :
    slice a i (m + k) = slice a i m ++ slice a (i + m) k := by
  induction m generalizing i with
  | zero => simp [slice]
  | succ m ih =>
    have : m + 1 + k = (m + k) + 1 := by omega
    rw [this]
    simp only [slice, List.cons_append]
    rw [ih (i + 1)]
    have : i + 1 + m = i + (m + 1) := by omega
    rw [this]

theorem slice_congr {α : Type} (a b : Nat → α) (i k : Nat)
    (h : ∀ x, i ≤ x → x < i + k → a x = b x) : slice a i k = slice b i k := by
  induction k generalizing i with
  | zero => rfl
  | succ k ih =>
    simp only [slice]
    rw [h i (le_refl i) (by omega), ih (i + 1) (fun x h1 h2 => h x (by omega) (by omega))]

theorem slice_shift {α : Type} (a : Nat → α) (i k : Nat) :
    slice (fun x => a (x + 1)) i k = slice a (i + 1) k := by
  induction k generalizing i with
  | zero => rfl
  | succ k ih => simp only [slice]; rw [ih (i + 1)]

theorem shift_loop_eq (k j : Nat) (a : Nat → Int) :
    shift_loop k j a = fun x => if j ≤ x ∧ x < j + k then a (x + 1) else a x := by
  induction k generalizing j a with
  | zero =>
    funext x
    have : ¬ (j ≤ x ∧ x < j) := by omega
    simp [shift_loop, this]
  | succ k ih =>
    funext x
    simp only [shift_loop, ih, aset]
    by_cases h1 : j + 1 ≤ x
    · by_cases h2 : x < j + 1 + k
      · have h3 : j ≤ x ∧ x < j + (k + 1) := ⟨by omega, by omega⟩
        have h4 : ¬ (x + 1 = j) := by omega
        simp [h1, h2, h3, h4]
      · have h3 : ¬ (j ≤ x ∧ x < j + (k + 1)) := by omega
        have h4 : ¬ (x = j) := by omega
        simp [h2, h3, h4]
    · by_cases h5 : x = j
      · subst h5
        simp
      · have h3 : ¬ (j ≤ x ∧ x < j + (k + 1)) := by omega
        simp [h1, h3, h5]

/-- Removing entry `i` by shifting leaves the entries before `i` and brings
the entries after `i` one place down. -/
theorem slice_shift_loop (a : Nat → Int) (n i : Nat) :
    slice (shift_loop (n - 1 - i) i a) 0 i = slice a 0 i ∧
    slice (shift_loop (n - 1 - i) i a) i (n - 1 - i) = slice a (i + 1) (n - 1 - i) := by
  rw [shift_loop_eq]
  constructor
  · apply slice_congr
    intro x _ h2
    have : ¬ (i ≤ x ∧ x < i + (n - 1 - i)) := by omega
    simp [this]
  · rw [← slice_shift]
    apply slice_congr
    intro x h1 h2
    have : i ≤ x ∧ x < i + (n - 1 - i) := ⟨h1, h2⟩
    simp [this]

theorem reap_loop_spec (n : Nat) : ∀ (i : Nat) (w : World), i + n = w.bg_count →
    registry (reap_loop n i w)
      = slice w.bg_processes 0 i ++ survivors (slice w.bg_processes i n) w.waitQ
    ∧ (reap_loop n i w).bg_count
      = i + (survivors (slice w.bg_processes i n) w.waitQ).length
    ∧ (reap_loop n i w).trace
      = w.trace ++ (slice w.bg_processes i n).map (fun p => Event.waitpid p true)
    ∧ (reap_loop n i w).waitQ = w.waitQ.drop n := by
  induction n with
  | zero =>
    intro i w h
    simp [reap_loop, slice, survivors, registry, ← h]
  | succ n ih =>
    intro i w h
    have hi : i < w.bg_count := by omega
    by_cases hp : 0 < (w.waitQ.head?.getD (-1, 0)).1
    · have e : reap_loop (n + 1) i w = reap_loop n i
          { w with waitQ := w.waitQ.tail,
                   trace := w.trace ++ [Event.waitpid (w.bg_processes i) true],
                   bg_processes := shift_loop (w.bg_count - 1 - i) i w.bg_processes,
                   bg_count := w.bg_count - 1 } := by
        simp [reap_loop, hi, waitpid, hp]
      obtain ⟨s1, s2⟩ := slice_shift_loop w.bg_processes w.bg_count i
      have hn : w.bg_count - 1 - i = n := by omega
      rw [hn] at s1 s2 e
      rw [e]
      obtain ⟨h1, h2, h3, h4⟩ := ih i
        { w with waitQ := w.waitQ.tail,
                 trace := w.trace ++ [Event.waitpid (w.bg_processes i) true],
                 bg_processes := shift_loop (w.bg_count - 1 - i) i w.bg_processes,
                 bg_count := w.bg_count - 1 } (by simp; omega)
      simp only [hn] at h1 h2 h3 h4
      rw [s1, s2] at h1
      rw [s2] at h2 h3
      refine ⟨?_, ?_, ?_, ?_⟩
      · rw [h1]; simp [slice, survivors, hp]
      · rw [h2]; simp [slice, survivors, hp]
      · rw [h3]; simp [slice]
      · rw [h4]; simp
    · have e : reap_loop (n + 1) i w = reap_loop n (i + 1)
          { w with waitQ := w.waitQ.tail,
                   trace := w.trace ++ [Event.waitpid (w.bg_processes i) true] } := by
        simp [reap_loop, hi, waitpid, hp]
      rw [e]
      obtain ⟨h1, h2, h3, h4⟩ := ih (i + 1)
        { w with waitQ := w.waitQ.tail,
                 trace := w.trace ++ [Event.waitpid (w.bg_processes i) true] }
        (by simp; omega)
      simp only at h1 h2 h3 h4
      refine ⟨?_, ?_, ?_, ?_⟩
      · rw [h1]
        have := slice_append w.bg_processes 0 i 1
        simp only [Nat.zero_add] at this
        rw [this]
        simp [slice, survivors, hp]
      · rw [h2]; simp [slice, survivors, hp]; omega
      · rw [h3]; simp [slice]
      · rw [h4]; simp

/-- The loop leaves through its condition `i < bg_count`: iterations granted
beyond `bg_count - i` are never used. -/
theorem reap_loop_fuel (n : Nat) : ∀ (i : Nat) (w : World) (k : Nat), i + n = w.bg_count →
    reap_loop (n + k) i w = reap_loop n i w := by
  induction n with
  | zero =>
    intro i w k h
    cases k with
    | zero => rfl
    | succ k =>
      have : ¬ (i < w.bg_count) := by omega
      simp [reap_loop, this]
  | succ n ih =>
    intro i w k h
    have hi : i < w.bg_count := by omega
    have : n + 1 + k = (n + k) + 1 := by omega
    rw [this]
    simp only [reap_loop, hi, if_true, waitpid]
    split_ifs
    · exact ih _ _ _ (by simp; omega)
    · exact ih _ _ _ (by simp; omega)

/-- C6. `reap_background_processes` terminates (iterations granted beyond
`bg_count` are never used), calls `waitpid(..., WNOHANG)` once for every
tracked entry, in order, and leaves exactly the entries whose call did not
return a positive pid, in their original order, `bg_count` being the number
of entries left. -/
theorem reap_background_processes_spec (w : World) :
    registry (reap_background_processes w) = survivors (registry w) w.waitQ
    ∧ (reap_background_processes w).bg_count = (survivors (registry w) w.waitQ).length
    ∧ (reap_background_processes w).trace
        = w.trace ++ (registry w).map (fun p => Event.waitpid p true)
    ∧ ∀ k, reap_loop (w.bg_count + k) 0 w = reap_background_processes w := by
  obtain ⟨h1, h2, h3, _⟩ := reap_loop_spec w.bg_count 0 w (by omega)
  refine ⟨?_, ?_, ?_, ?_⟩
  · simpa [reap_background_processes, registry, slice] using h1
  · simpa [reap_background_processes, registry] using h2
  · simpa [reap_background_processes, registry] using h3
  · intro k
    exact reap_loop_fuel w.bg_count 0 w k (by omega)

/-! ## Background registry: tracking a new child -/

theorem slice_aset_end (a : Nat → Int) (n : Nat) (v : Int) :
    slice (aset a n v) 0 (n + 1) = slice a 0 n ++ [v] := by
  rw [slice_append]
  congr 1
  · apply slice_congr
    intro x _ h2
    have : ¬ (x = n) := by omega
    simp [aset, this]
  · simp [slice, aset]

/-- C9 (as the code behaves). When the registry is not full
(`bg_count < 1000`) and `fork` returns the pid of a new child to
`end_background` on a node that is neither `SEP_BG` nor `SEP_END`, the
function returns with that pid appended after the entries tracked before,
which are unchanged, and with `bg_count` one larger. -/
theorem end_background_tracks_child (STATUS : Int → Int) (d : CmdInfo) (l r : CMD)
    (w : World) (pid : Int) (rest : List Int)
    (ht1 : d.type ≠ Tok.SEP_BG) (ht2 : d.type ≠ Tok.SEP_END)
    (hf : w.forkQ = pid :: rest) (hp : 0 < pid) (hc : w.bg_count < BG_PROCESSES_MAX) :
    ∃ w1, end_background STATUS (.node d l r) w = .ret () w1
      ∧ registry w1 = registry w ++ [pid]
      ∧ w1.bg_count = w.bg_count + 1 := by
  have h1 : pid ≠ -1 := by omega
  have h2 : pid ≠ 0 := by omega
  refine ⟨add_to_background_queue pid
    { w with forkQ := rest, trace := w.trace ++ [Event.fork] }, ?_, ?_, ?_⟩
  · simp [end_background, ht1, ht2, background_spawn, fork, hf, h1, h2]
  · simp [add_to_background_queue, hc, registry, slice_aset_end]
  · simp [add_to_background_queue, hc]

/-- C9, instance: with two tracked children and `fork` returning pid `42`,
`sleep 1` is tracked as third entry. -/
theorem end_background_tracks_child_witness :
    ∃ w1, end_background WEXITSTATUS (CMD.simple ["sleep", "1"])
        { World.start with bg_count := 2, bg_processes := fun i => 10 + i, forkQ := [42] }
          = .ret () w1
      ∧ registry w1 = [10, 11] ++ [42] ∧ w1.bg_count = 2 + 1 :=
  end_background_tracks_child WEXITSTATUS _ .null .null
    { World.start with bg_count := 2, bg_processes := fun i => 10 + i, forkQ := [42] }
    42 [] (by decide) (by decide) rfl (by decide) (by decide)

/-- C9, counterexample. With a full registry (`bg_count = 1000`) a child is
created by `fork` (pid `42`) but `end_background` returns without tracking
it: `bg_count` stays `1000` and no slot of the array holds `42`. -/
theorem end_background_full_registry_drops_child :
    ∃ w1, end_background WEXITSTATUS (CMD.simple ["sleep", "1"])
        { World.start with bg_count := 1000, forkQ := [42] } = .ret () w1
      ∧ w1.trace = [Event.fork] ∧ w1.bg_count = 1000 ∧ ∀ i, w1.bg_processes i ≠ 42 :=
  ⟨{ World.start with bg_count := 1000, forkQ := [], trace := [Event.fork] },
   rfl, rfl, rfl, fun _ => by show (0 : Int) ≠ 42; decide⟩

/-! ## Directory stack -/

theorem slice_aset_above (a : Nat → String) (n : Nat) (v : String) :
    slice (aset a n v) 0 n = slice a 0 n := by
  apply slice_congr
  intro x _ h2
  have : ¬ (x = n) := by omega
  simp [aset, this]

/-- The two ways a `chdir` call can end. -/
theorem chdir_cases (path : String) (w : World) :
    (∃ c, chdir path w =
      (none, { w with trace := w.trace ++ [Event.chdir path], cwd := c,
                      chdirQ := w.chdirQ.tail }))
    ∨ (∃ e, chdir path w =
      (some e, { w with trace := w.trace ++ [Event.chdir path],
                        chdirQ := w.chdirQ.tail })) := by
  unfold chdir
  cases w.chdirQ.headD (ChdirRes.err 2) with
  | ok c => exact Or.inl ⟨c, rfl⟩
  | err e => exact Or.inr ⟨e, rfl⟩

/-- C4. Whenever `execute_builtin` runs `pushd` on a directory stack
(`dir_stack_top` at least `-1`, its value for the empty stack) and returns a
non-zero status, the directory stack has the depth and the entries, in order,
that it had before the call. -/
theorem pushd_failure_keeps_stack (d : CmdInfo) (w : World)
    (hname : d.argv.headD "" = "pushd") (hwf : -1 ≤ w.dir_stack_top)
    (hfail : (execute_builtin d w).1 ≠ 0) :
    (execute_builtin d w).2.dir_stack_top = w.dir_stack_top
    ∧ dirs (execute_builtin d w).2 = dirs w := by
  have hcd : ¬ ("pushd" = "cd") := by decide
  simp only [execute_builtin, hname, hcd, if_false, if_true] at hfail ⊢
  by_cases hlen : d.argv.length ≠ 2
  · simp [hlen, dirs]
  · simp only [hlen, if_false] at hfail ⊢
    simp only [getcwd, sys] at hfail ⊢
    by_cases he : w.errQ.headD 1 = 0
    · simp only [he, if_true] at hfail ⊢
      by_cases hfull : w.dir_stack_top ≥ STACK_DIR_MAX - 1
      · simp [push_directory, hfull, dirs]
      · simp only [push_directory, hfull, if_false, ne_eq, not_true_eq_false] at hfail ⊢
        rcases chdir_cases (d.argv.getD 1 "")
          { w with errQ := w.errQ.tail,
                   dir_stack := aset w.dir_stack (w.dir_stack_top + 1).toNat w.cwd,
                   dir_stack_top := w.dir_stack_top + 1 } with ⟨c, hc⟩ | ⟨e, hc⟩
        · rw [hc] at hfail
          simp at hfail
        · rw [hc]
          have hpos : ¬ (w.dir_stack_top + 1 < 0) := by omega
          simp [pop_directory, hpos, dirs, slice_aset_above]
    · simp only [he, if_false]
      simp [dirs]

/-- C4, instance: `pushd /nonexistent` on the stack `[/x]`, the directory
change failing with `ENOENT`, returns `2` and leaves the stack `[/x]`. -/
theorem pushd_failure_keeps_stack_witness :
    (pushd_cmd "/nonexistent").argv.headD "" = "pushd"
    ∧ (execute_builtin (pushd_cmd "/nonexistent")
        { World.start with dir_stack := fun _ => "/x", dir_stack_top := 0, errQ := [0],
                           chdirQ := [ChdirRes.err 2] }).1 = 2
    ∧ dirs (execute_builtin (pushd_cmd "/nonexistent")
        { World.start with dir_stack := fun _ => "/x", dir_stack_top := 0, errQ := [0],
                           chdirQ := [ChdirRes.err 2] }).2 = ["/x"] :=
  ⟨by decide, by decide,
   (pushd_failure_keeps_stack (pushd_cmd "/nonexistent")
      { World.start with dir_stack := fun _ => "/x", dir_stack_top := 0, errQ := [0],
                         chdirQ := [ChdirRes.err 2] }
      (by decide) (by decide) (by decide)).2⟩

/-- Only `errQ` and `out` are touched by `print_directory`. -/
theorem print_directory_frame (w : World) :
    (print_directory w).cwd = w.cwd ∧ (print_directory w).dir_stack = w.dir_stack
    ∧ (print_directory w).dir_stack_top = w.dir_stack_top
    ∧ (print_directory w).chdirQ = w.chdirQ ∧ (print_directory w).errQ = w.errQ.tail
    ∧ (print_directory w).trace = w.trace := by
  by_cases h : w.errQ.head?.getD 1 = 0 <;> simp [print_directory, getcwd, sys, h]

theorem pushd_ok (w : World) (dir c : String) (erest : List Int) (crest : List ChdirRes)
    (h1 : w.errQ = 0 :: erest) (h2 : w.chdirQ = ChdirRes.ok c :: crest)
    (h3 : w.dir_stack_top < 999) :
    (execute_builtin (pushd_cmd dir) w).1 = 0
    ∧ (execute_builtin (pushd_cmd dir) w).2.cwd = c
    ∧ (execute_builtin (pushd_cmd dir) w).2.dir_stack
        = aset w.dir_stack (w.dir_stack_top + 1).toNat w.cwd
    ∧ (execute_builtin (pushd_cmd dir) w).2.dir_stack_top = w.dir_stack_top + 1
    ∧ (execute_builtin (pushd_cmd dir) w).2.chdirQ = crest
    ∧ (execute_builtin (pushd_cmd dir) w).2.errQ = erest.tail
    ∧ (execute_builtin (pushd_cmd dir) w).2.trace = w.trace ++ [Event.chdir dir] := by
  have hfull : ¬ (w.dir_stack_top ≥ STACK_DIR_MAX - 1) := by
    simp only [STACK_DIR_MAX]; omega
  have e : execute_builtin (pushd_cmd dir) w = (0, print_directory
      { w with trace := w.trace ++ [Event.chdir dir], cwd := c, chdirQ := crest, errQ := erest,
               dir_stack := aset w.dir_stack (w.dir_stack_top + 1).toNat w.cwd,
               dir_stack_top := w.dir_stack_top + 1 }) := by
    simp [execute_builtin, pushd_cmd, getcwd, sys, h1, push_directory, hfull, chdir, h2]
  rw [e]
  obtain ⟨p1, p2, p3, p4, p5, p6⟩ := print_directory_frame
      { w with trace := w.trace ++ [Event.chdir dir], cwd := c, chdirQ := crest, errQ := erest,
               dir_stack := aset w.dir_stack (w.dir_stack_top + 1).toNat w.cwd,
               dir_stack_top := w.dir_stack_top + 1 }
  exact ⟨rfl, p1, p2, p3, p4, p5, p6⟩

theorem popd_ok (w : World) (c : String) (crest : List ChdirRes)
    (h2 : w.chdirQ = ChdirRes.ok c :: crest) (h3 : 0 ≤ w.dir_stack_top) :
    (execute_builtin popd_cmd w).1 = 0
    ∧ (execute_builtin popd_cmd w).2.cwd = c
    ∧ (execute_builtin popd_cmd w).2.dir_stack = w.dir_stack
    ∧ (execute_builtin popd_cmd w).2.dir_stack_top = w.dir_stack_top - 1
    ∧ (execute_builtin popd_cmd w).2.chdirQ = crest
    ∧ (execute_builtin popd_cmd w).2.errQ = w.errQ.tail
    ∧ (execute_builtin popd_cmd w).2.trace
        = w.trace ++ [Event.chdir (w.dir_stack w.dir_stack_top.toNat)] := by
  have hne : ¬ (w.dir_stack_top < 0) := by omega
  have e : execute_builtin popd_cmd w = (0, print_directory
      { w with trace := w.trace ++ [Event.chdir (w.dir_stack w.dir_stack_top.toNat)], cwd := c,
               chdirQ := crest, dir_stack_top := w.dir_stack_top - 1 }) := by
    simp [execute_builtin, popd_cmd, pop_directory, hne, chdir, h2]
  rw [e]
  obtain ⟨p1, p2, p3, p4, p5, p6⟩ := print_directory_frame
      { w with trace := w.trace ++ [Event.chdir (w.dir_stack w.dir_stack_top.toNat)], cwd := c,
               chdirQ := crest, dir_stack_top := w.dir_stack_top - 1 }
  exact ⟨rfl, p1, p2, p3, p4, p5, p6⟩

/-- C5 (as the code behaves). From an empty directory stack, when the working
directory can be read at both `pushd`, the two directory changes of `pushd`
succeed and the two directory changes of `popd`, into the saved directories,
succeed and arrive there, `pushd d1; pushd d2; popd; popd` returns `0` four
times, `popd` changes into the saved directories in last-in first-out order,
the working directory after the first `popd` is the one that `pushd d1` had
reached, the final working directory is the initial one and the stack is
empty again. -/
theorem pushd_popd_roundtrip (w : World) (d1 d2 c1 c2 : String) (a b : Int)
    (erest : List Int) (crest : List ChdirRes)
    (hempty : w.dir_stack_top = -1)
    (herr : w.errQ = 0 :: a :: 0 :: b :: erest)
    (hch : w.chdirQ = ChdirRes.ok c1 :: ChdirRes.ok c2 :: ChdirRes.ok c1
                        :: ChdirRes.ok w.cwd :: crest) :
    (run_builtins [pushd_cmd d1, pushd_cmd d2, popd_cmd, popd_cmd] w).1 = [0, 0, 0, 0]
    ∧ (run_builtins [pushd_cmd d1, pushd_cmd d2, popd_cmd, popd_cmd] w).2.cwd = w.cwd
    ∧ (run_builtins [pushd_cmd d1, pushd_cmd d2, popd_cmd, popd_cmd] w).2.dir_stack_top = -1
    ∧ dirs (run_builtins [pushd_cmd d1, pushd_cmd d2, popd_cmd, popd_cmd] w).2 = []
    ∧ (run_builtins [pushd_cmd d1, pushd_cmd d2, popd_cmd] w).2.cwd
        = (run_builtins [pushd_cmd d1] w).2.cwd
    ∧ (run_builtins [pushd_cmd d1, pushd_cmd d2, popd_cmd, popd_cmd] w).2.trace
        = w.trace ++ [Event.chdir d1, Event.chdir d2, Event.chdir c1, Event.chdir w.cwd] := by
  obtain ⟨a1, a2, a3, a4, a5, a6, a7⟩ :=
    pushd_ok w d1 c1 _ _ herr hch (by omega)
  have a6' : (execute_builtin (pushd_cmd d1) w).2.errQ = 0 :: b :: erest := by
    rw [a6]; rfl
  obtain ⟨b1, b2, b3, b4, b5, b6, b7⟩ :=
    pushd_ok (execute_builtin (pushd_cmd d1) w).2 d2 c2 _ _ a6' a5 (by omega)
  obtain ⟨c1', c2', c3, c4, c5, c6, c7⟩ :=
    popd_ok (execute_builtin (pushd_cmd d2) (execute_builtin (pushd_cmd d1) w).2).2
      c1 _ b5 (by omega)
  obtain ⟨e1, e2, e3, e4, e5, e6, e7⟩ :=
    popd_ok (execute_builtin popd_cmd
      (execute_builtin (pushd_cmd d2) (execute_builtin (pushd_cmd d1) w).2).2).2
      w.cwd _ c5 (by omega)
  simp only [run_builtins]
  refine ⟨?_, e2, ?_, ?_, ?_, ?_⟩
  · simp [a1, b1, c1', e1]
  · rw [e4, c4, b4, a4, hempty]; norm_num
  · have : (execute_builtin popd_cmd (execute_builtin popd_cmd
        (execute_builtin (pushd_cmd d2) (execute_builtin (pushd_cmd d1) w).2).2).2).2.dir_stack_top
          = -1 := by
      rw [e4, c4, b4, a4, hempty]; norm_num
    simp [dirs, this, slice]
  · rw [c2', a2]
  · rw [e7, c7, b7, a7, c3, c4, b3, b4, a3, a4, a2, hempty]
    simp [aset]

/-- C5, instance: from `/home`, with directories `/a` and `/b`. -/
theorem pushd_popd_roundtrip_witness :
    (run_builtins [pushd_cmd "/a", pushd_cmd "/b", popd_cmd, popd_cmd]
        { World.start with cwd := "/home", errQ := [0, 0, 0, 0, 0, 0],
                           chdirQ := [ChdirRes.ok "/a", ChdirRes.ok "/b", ChdirRes.ok "/a",
                       ChdirRes.ok "/home"] }).1 = [0, 0, 0, 0]
    ∧ (run_builtins [pushd_cmd "/a", pushd_cmd "/b", popd_cmd, popd_cmd]
        { World.start with cwd := "/home", errQ := [0, 0, 0, 0, 0, 0],
                           chdirQ := [ChdirRes.ok "/a", ChdirRes.ok "/b", ChdirRes.ok "/a",
                       ChdirRes.ok "/home"] }).2.cwd = "/home" :=
  ⟨(pushd_popd_roundtrip
      { World.start with cwd := "/home", errQ := [0, 0, 0, 0, 0, 0],
                         chdirQ := [ChdirRes.ok "/a", ChdirRes.ok "/b", ChdirRes.ok "/a",
                     ChdirRes.ok "/home"] }
      "/a" "/b" "/a" "/b" 0 0 [0, 0] [] rfl rfl rfl).1,
   (pushd_popd_roundtrip
      { World.start with cwd := "/home", errQ := [0, 0, 0, 0, 0, 0],
                         chdirQ := [ChdirRes.ok "/a", ChdirRes.ok "/b", ChdirRes.ok "/a",
                     ChdirRes.ok "/home"] }
      "/a" "/b" "/a" "/b" 0 0 [0, 0] [] rfl rfl rfl).2.1⟩

/-- C5, counterexample. Both directory changes of `pushd` succeed, but the
directory saved by `pushd /b` can no longer be entered (`ENOENT`) when the
first `popd` runs: that `popd` returns `2` and the working directory stays
`/b`. -/
theorem popd_fails_after_successful_pushd :
    (run_builtins [pushd_cmd "/a", pushd_cmd "/b", popd_cmd, popd_cmd]
        { World.start with cwd := "/home", errQ := [0, 0, 0, 0, 0, 0],
                           chdirQ := [ChdirRes.ok "/a", ChdirRes.ok "/b", ChdirRes.err 2,
                       ChdirRes.ok "/home"] }).1 = [0, 0, 2, 0]
    ∧ (run_builtins [pushd_cmd "/a", pushd_cmd "/b", popd_cmd]
        { World.start with cwd := "/home", errQ := [0, 0, 0, 0, 0, 0],
                           chdirQ := [ChdirRes.ok "/a", ChdirRes.ok "/b", ChdirRes.err 2,
                       ChdirRes.ok "/home"] }).2.cwd = "/b" := by
  decide

/-! ## Pipelines: order of the stages -/

theorem slice_get {α : Type} (a : Nat → α) (i k j : Nat) (h : j < (slice a i k).length) :
    (slice a i k)[j] = a (i + j) := by
  induction k generalizing i j with
  | zero => simp [slice] at h
  | succ k ih =>
    cases j with
    | zero => simp [slice]
    | succ j =>
      simp only [slice, List.getElem_cons_succ]
      rw [ih (i + 1) j (by simpa [slice] using h)]
      congr 1
      omega

theorem collect_loop_spine (c0 : CMD) (d0 : CmdInfo) (l0 r0 : CMD) (h0 : c0 = .node d0 l0 r0)
    (ht : d0.type ≠ Tok.PIPE) (w : World) (rs : List (CmdInfo × CMD))
    (hr : ∀ p ∈ rs, p.2 ≠ CMD.null) :
    ∀ (commands : Nat → CMD) (cnt : Nat), cnt + rs.length + 1 ≤ 1024 →
    ∃ commands', collect_loop (pipe_spine c0 rs) commands cnt w
        = .ret (commands', cnt + rs.length + 1) w
      ∧ slice commands' cnt (rs.length + 1) = rs.map (fun p => p.2) ++ [c0]
      ∧ ∀ x, x < cnt → commands' x = commands x := by
  induction rs with
  | nil =>
    intro commands cnt hb
    have hlt : cnt < 1024 := by simp at hb; omega
    refine ⟨aset commands cnt c0, ?_, ?_, ?_⟩
    · subst h0
      simp [pipe_spine, collect_loop, hlt, ht]
    · simp [slice, aset]
    · intro x hx
      have : ¬ (x = cnt) := by omega
      simp [aset, this]
  | cons p rest ih =>
    intro commands cnt hb
    obtain ⟨d, c⟩ := p
    have hc : c ≠ CMD.null := hr (d, c) (List.mem_cons_self _ _)
    have hlt : cnt < 1024 := by simp at hb; omega
    obtain ⟨commands', e1, e2, e3⟩ :=
      ih (fun q hq => hr q (List.mem_cons_of_mem _ hq)) (aset commands cnt c) (cnt + 1)
        (by simp at hb ⊢; omega)
    refine ⟨commands', ?_, ?_, ?_⟩
    · simp only [pipe_spine, collect_loop, hlt, if_true, hc, if_false]
      rw [e1]
      simp only [List.length_cons]
      congr 2
      omega
    · have hcnt : commands' cnt = c := by
        rw [e3 cnt (by omega)]
        simp [aset]
      have hs : slice commands' cnt (rest.length + 1 + 1)
          = commands' cnt :: slice commands' (cnt + 1) (rest.length + 1) := rfl
      simp only [List.length_cons, List.map_cons, List.cons_append]
      rw [hs, hcnt, e2]
    · intro x hx
      rw [e3 x (by omega)]
      have : ¬ (x = cnt) := by omega
      simp [aset, this]

theorem reverse_loop_eq (n : Nat) (k : Nat) : ∀ (i : Nat) (a : Nat → CMD), 2 * (i + k) ≤ n →
    reverse_loop k i n a = fun x =>
      if (i ≤ x ∧ x < i + k) ∨ (n - (i + k) ≤ x ∧ x < n - i) then a (n - 1 - x) else a x := by
  induction k with
  | zero =>
    intro i a _
    funext x
    have : ¬ ((i ≤ x ∧ x < i + 0) ∨ (n - (i + 0) ≤ x ∧ x < n - i)) := by omega
    simp only [reverse_loop]
    rw [if_neg this]
  | succ k ih =>
    intro i a h
    funext x
    simp only [reverse_loop]
    rw [ih (i + 1) _ (by omega)]
    simp only [aset]
    by_cases c1 : (i + 1 ≤ x ∧ x < i + 1 + k) ∨ (n - (i + 1 + k) ≤ x ∧ x < n - (i + 1))
    · have c2 : (i ≤ x ∧ x < i + (k + 1)) ∨ (n - (i + (k + 1)) ≤ x ∧ x < n - i) := by omega
      have c3 : ¬ (n - 1 - x = n - i - 1) := by omega
      have c4 : ¬ (n - 1 - x = i) := by omega
      rw [if_pos c1, if_pos c2, if_neg c3, if_neg c4]
    · rw [if_neg c1]
      by_cases c5 : x = n - i - 1
      · have c2 : (i ≤ x ∧ x < i + (k + 1)) ∨ (n - (i + (k + 1)) ≤ x ∧ x < n - i) := by omega
        rw [if_pos c5, if_pos c2]
        congr 1
        omega
      · rw [if_neg c5]
        by_cases c6 : x = i
        · have c2 : (i ≤ x ∧ x < i + (k + 1)) ∨ (n - (i + (k + 1)) ≤ x ∧ x < n - i) := by
            omega
          rw [if_pos c6, if_pos c2]
          congr 1
          omega
        · have c2 : ¬ ((i ≤ x ∧ x < i + (k + 1)) ∨ (n - (i + (k + 1)) ≤ x ∧ x < n - i)) := by
            omega
          rw [if_neg c6, if_neg c2]

/-- The reversal loop puts `commands[cmd_count - 1 - x]` at every index
`x < cmd_count`. -/
theorem reverse_loop_get (n : Nat) (a : Nat → CMD) (x : Nat) (hx : x < n) :
    reverse_loop (n / 2) 0 n a x = a (n - 1 - x) := by
  rw [reverse_loop_eq n (n / 2) 0 a (by omega)]
  by_cases c : (0 ≤ x ∧ x < 0 + n / 2) ∨ (n - (0 + n / 2) ≤ x ∧ x < n - 0)
  · simp only [if_pos c]
  · simp only [if_neg c]
    congr 1
    omega

theorem reverse_loop_slice (n : Nat) (a : Nat → CMD) :
    slice (reverse_loop (n / 2) 0 n a) 0 n = (slice a 0 n).reverse := by
  apply List.ext_getElem
  · simp [slice_length]
  · intro j h1 h2
    have hj : j < n := by simpa [slice_length] using h1
    rw [slice_get, List.getElem_reverse, slice_get]
    rw [Nat.zero_add, reverse_loop_get n a j hj]
    simp [slice_length]

/-! ## Pipelines: spawning and waiting -/

theorem valid_stage_node (c : CMD) (h : valid_stage c = true) :
    ∃ d l r, c = CMD.node d l r ∧ d.argv ≠ [] := by
  cases c with
  | null => simp [valid_stage] at h
  | node d l r => exact ⟨d, l, r, rfl, by simpa [valid_stage] using h⟩

/-- One iteration of the spawn loop in the parent, when the `pipe` call (if
any) and the `fork` call succeed. -/
theorem spawn_loop_step (k i n : Nat) (commands : Nat → CMD) (prev : Bool) (pids : Nat → Int)
    (w : World) (p : Int) (frest erest : List Int)
    (hv : valid_stage (commands i) = true)
    (hf : w.forkQ = p :: frest) (hp1 : p ≠ -1) (hp0 : p ≠ 0)
    (he : w.errQ = (if i + 1 < n then [0] else []) ++ erest) :
    spawn_loop (k + 1) i n commands prev pids w =
      if i < 1000 then
        spawn_loop k (i + 1) n commands (decide (i + 1 < n)) (aset pids i p)
          { w with errQ := erest, forkQ := frest,
                   trace := w.trace ++ (if i + 1 < n then [Event.pipe] else []) ++ [Event.fork] }
      else
        .fault { w with errQ := erest, forkQ := frest,
                        trace := w.trace ++ (if i + 1 < n then [Event.pipe] else []) ++ [Event.fork] } := by
  obtain ⟨d, l, r, hc, hargv⟩ := valid_stage_node _ hv
  by_cases hlast : i + 1 < n
  · simp only [hlast, if_true, List.singleton_append] at he
    simp [spawn_loop, hlast, sys, he, Res.bind, hc, hargv, fork, hf, hp1, hp0]
  · simp only [hlast, if_false, List.nil_append] at he
    have he' : erest = w.errQ := he.symm
    subst he'
    simp [spawn_loop, hlast, Res.bind, hc, hargv, fork, hf, hp1, hp0]

theorem spawn_loop_ok (n : Nat) (commands : Nat → CMD) (hn : n ≤ 1000) (k : Nat) :
    ∀ (i : Nat) (prev : Bool) (pids : Nat → Int) (w : World) (pidsL erest frest : List Int),
    i + k = n → (∀ x, i ≤ x → x < n → valid_stage (commands x) = true) →
    w.errQ = List.replicate (k - 1) 0 ++ erest → w.forkQ = pidsL ++ frest →
    pidsL.length = k → (∀ p ∈ pidsL, p ≠ -1 ∧ p ≠ 0) →
    ∃ pids', spawn_loop k i n commands prev pids w
        = .ret pids' { w with errQ := erest, forkQ := frest,
                              trace := w.trace ++ spawn_events k }
      ∧ slice pids' i k = pidsL ∧ ∀ x, x < i → pids' x = pids x := by
  induction k with
  | zero =>
    intro i prev pids w pidsL erest frest _ _ he hf hl _
    have hnil : pidsL = [] := List.length_eq_zero.mp hl
    subst hnil
    refine ⟨pids, ?_, rfl, fun _ _ => rfl⟩
    simp only [List.replicate, List.nil_append] at he hf
    simp [spawn_loop, spawn_events, ← he, ← hf]
  | succ k ih =>
    intro i prev pids w pidsL erest frest hik hv he hf hl hp
    cases pidsL with
    | nil => simp at hl
    | cons p ps =>
      have hpp := hp p (List.mem_cons_self _ _)
      have hi : i < 1000 := by omega
      by_cases hlast : i + 1 < n
      · obtain ⟨k', rfl⟩ : ∃ k', k = k' + 1 := ⟨k - 1, by omega⟩
        have he1 : w.errQ = (if i + 1 < n then [0] else []) ++
            (List.replicate k' 0 ++ erest) := by
          rw [he]; simp [hlast, List.replicate_succ]
        rw [spawn_loop_step (k' + 1) i n commands prev pids w p (ps ++ frest) _
          (hv i (le_refl i) (by omega)) (by simpa using hf) hpp.1 hpp.2 he1]
        simp only [hi, if_true, hlast]
        obtain ⟨pids', e1, e2, e3⟩ := ih (i + 1) (decide True) (aset pids i p)
          { w with errQ := List.replicate k' 0 ++ erest, forkQ := ps ++ frest,
                   trace := w.trace ++ [Event.pipe] ++ [Event.fork] }
          ps erest frest (by omega) (fun x h1 h2 => hv x (by omega) h2)
          (by simp) rfl (by simpa using hl)
          (fun q hq => hp q (List.mem_cons_of_mem _ hq))
        refine ⟨pids', ?_, ?_, ?_⟩
        · rw [e1]; simp [spawn_events]
        · have hs : slice pids' i (k' + 1 + 1) = pids' i :: slice pids' (i + 1) (k' + 1) := rfl
          rw [hs, e2, e3 i (by omega)]
          simp [aset]
        · intro x hx
          rw [e3 x (by omega)]
          have : ¬ (x = i) := by omega
          simp [aset, this]
      · have hk : k = 0 := by omega
        subst hk
        have he1 : w.errQ = (if i + 1 < n then [0] else []) ++ erest := by
          rw [he]; simp [hlast]
        rw [spawn_loop_step 0 i n commands prev pids w p (ps ++ frest) _
          (hv i (le_refl i) (by omega)) (by simpa using hf) hpp.1 hpp.2 he1]
        have hps : ps = [] := List.length_eq_zero.mp (by simpa using hl)
        subst hps
        refine ⟨aset pids i p, ?_, ?_, ?_⟩
        · simp [hi, hlast, spawn_loop, spawn_events]
        · simp [slice, aset]
        · intro x hx
          have : ¬ (x = i) := by omega
          simp [aset, this]

/-- With more than 1000 stages the parent stores the pid of stage 1000 beyond
the end of `pids[1000]`, even though every call succeeds. -/
theorem spawn_loop_overflow (n : Nat) (commands : Nat → CMD) (hn : 1000 < n) (k : Nat) :
    ∀ (i : Nat) (prev : Bool) (pids : Nat → Int) (w : World) (pidsL erest frest : List Int),
    i + k = n → i ≤ 1000 → (∀ x, i ≤ x → x < n → valid_stage (commands x) = true) →
    w.errQ = List.replicate (k - 1) 0 ++ erest → w.forkQ = pidsL ++ frest →
    pidsL.length = k → (∀ p ∈ pidsL, p ≠ -1 ∧ p ≠ 0) →
    (spawn_loop k i n commands prev pids w).faulted = true := by
  induction k with
  | zero => intro i _ _ _ _ _ _ h1 h2; omega
  | succ k ih =>
    intro i prev pids w pidsL erest frest hik hi hv he hf hl hp
    cases pidsL with
    | nil => simp at hl
    | cons p ps =>
      have hpp := hp p (List.mem_cons_self _ _)
      by_cases hlast : i + 1 < n
      · obtain ⟨k', rfl⟩ : ∃ k', k = k' + 1 := ⟨k - 1, by omega⟩
        have he1 : w.errQ = (if i + 1 < n then [0] else []) ++
            (List.replicate k' 0 ++ erest) := by
          rw [he]; simp [hlast, List.replicate_succ]
        rw [spawn_loop_step (k' + 1) i n commands prev pids w p (ps ++ frest) _
          (hv i (le_refl i) (by omega)) (by simpa using hf) hpp.1 hpp.2 he1]
        by_cases h1000 : i < 1000
        · simp only [h1000, if_true]
          exact ih (i + 1) _ _ _ ps erest frest (by omega) (by omega)
            (fun x h1 h2 => hv x (by omega) h2) (by simp) rfl (by simpa using hl)
            (fun q hq => hp q (List.mem_cons_of_mem _ hq))
        · simp [h1000, Res.faulted]
      · have hk : k = 0 := by omega
        subst hk
        have he1 : w.errQ = (if i + 1 < n then [0] else []) ++ erest := by
          rw [he]; simp [hlast]
        rw [spawn_loop_step 0 i n commands prev pids w p (ps ++ frest) _
          (hv i (le_refl i) (by omega)) (by simpa using hf) hpp.1 hpp.2 he1]
        have h1000 : ¬ (i < 1000) := by omega
        simp [h1000, Res.faulted]

theorem wait_loop_ok (STATUS : Int → Int) (k : Nat) :
    ∀ (i : Nat) (pids : Nat → Int) (es : Int) (w : World) (answers wrest : List (Int × Int)),
    w.waitQ = answers ++ wrest → answers.length = k → (∀ a ∈ answers, a.1 ≠ -1) →
    wait_loop STATUS k i pids es w
      = (List.foldl (fun acc s => if s ≠ 0 then s else acc) es
            (answers.map (fun a => STATUS a.2)),
         { w with waitQ := wrest,
                  trace := w.trace ++ (slice pids i k).map (fun p => Event.waitpid p false) }) := by
  induction k with
  | zero =>
    intro i pids es w answers wrest hq hl _
    have hnil : answers = [] := List.length_eq_zero.mp hl
    subst hnil
    simp only [List.nil_append] at hq
    simp [wait_loop, slice, ← hq]
  | succ k ih =>
    intro i pids es w answers wrest hq hl ha
    cases answers with
    | nil => simp at hl
    | cons a as =>
      obtain ⟨r, st⟩ := a
      have hr : r ≠ -1 := ha (r, st) (List.mem_cons_self _ _)
      have hq' : w.waitQ = (r, st) :: (as ++ wrest) := by simpa using hq
      have hrec := ih (i + 1) pids
      by_cases hs : STATUS st = 0
      · have e : wait_loop STATUS (k + 1) i pids es w = wait_loop STATUS k (i + 1) pids es
            { w with waitQ := as ++ wrest,
                     trace := w.trace ++ [Event.waitpid (pids i) false] } := by
          simp [wait_loop, waitpid, hq', hr, hs]
        rw [e, hrec es _ as wrest rfl (by simpa using hl)
          (fun b hb => ha b (List.mem_cons_of_mem _ hb))]
        simp [hs, slice]
      · have e : wait_loop STATUS (k + 1) i pids es w
            = wait_loop STATUS k (i + 1) pids (STATUS st)
            { w with waitQ := as ++ wrest,
                     trace := w.trace ++ [Event.waitpid (pids i) false] } := by
          simp [wait_loop, waitpid, hq', hr, hs]
        rw [e, hrec (STATUS st) _ as wrest rfl (by simpa using hl)
          (fun b hb => ha b (List.mem_cons_of_mem _ hb))]
        simp [hs, slice]

/-- Folding "keep the last non-zero value" over a list yields the entry at
the largest index holding a non-zero value, and the initial value when every
entry is zero. -/
theorem foldl_last_nonzero (ss : List Int) : ∀ (init : Int),
    (∀ k (hk : k < ss.length), ss[k] ≠ 0 →
        (∀ j (hj : j < ss.length), k < j → ss[j] = 0) →
        List.foldl (fun acc s => if s ≠ 0 then s else acc) init ss = ss[k])
    ∧ ((∀ s ∈ ss, s = 0) →
        List.foldl (fun acc s => if s ≠ 0 then s else acc) init ss = init) := by
  induction ss with
  | nil =>
    intro init
    exact ⟨fun k hk => absurd hk (by simp), fun _ => rfl⟩
  | cons s t ih =>
    intro init
    constructor
    · intro k hk hne hlater
      cases k with
      | zero =>
        have hs : s ≠ 0 := by simpa using hne
        have hz : ∀ x ∈ t, x = 0 := by
          intro x hx
          obtain ⟨j, hj, rfl⟩ := List.getElem_of_mem hx
          simpa using hlater (j + 1) (by simpa using hj) (by omega)
        simp only [List.foldl_cons, hs, ne_eq, not_false_eq_true, if_true]
        rw [(ih s).2 hz]
        simp
      | succ k =>
        simp only [List.foldl_cons, List.getElem_cons_succ]
        apply (ih _).1 k (by simpa using hk) (by simpa using hne)
        intro j hj hkj
        simpa using hlater (j + 1) (by simpa using hj) (by omega)
    · intro hz
      have hs : s = 0 := hz s (List.mem_cons_self _ _)
      simp only [List.foldl_cons, hs, ne_eq, not_true_eq_false, if_false]
      exact (ih init).2 (fun x hx => hz x (List.mem_cons_of_mem _ hx))

theorem spawn_events_pipes (k : Nat) : (spawn_events (k + 1)).count Event.pipe = k := by
  induction k with
  | zero => simp [spawn_events]
  | succ k ih => simp [spawn_events, ih]

theorem pipe_tree_ne_null (c0 : CMD) (d0 : CmdInfo) (l0 r0 : CMD) (h0 : c0 = .node d0 l0 r0)
    (rs : List (CmdInfo × CMD)) : pipe_spine c0 rs ≠ CMD.null := by
  cases rs with
  | nil => subst h0; simp [pipe_spine]
  | cons p rest => simp [pipe_spine]

/-- The stage array built by the first two loops of `process_pipeline` for
the pipeline `c0 | c1 | ... | cn` of at most 1024 stages. -/
theorem pipeline_commands (c0 : CMD) (d0 : CmdInfo) (l0 r0 : CMD) (h0 : c0 = .node d0 l0 r0)
    (ht : d0.type ≠ Tok.PIPE) (cs : List (CmdInfo × CMD)) (hr : ∀ p ∈ cs, p.2 ≠ CMD.null)
    (hN : cs.length + 1 ≤ 1024) (w : World) :
    ∃ commands, collect_loop (pipe_tree c0 cs) (fun _ => CMD.null) 0 w
        = .ret (commands, cs.length + 1) w
      ∧ slice (reverse_loop ((cs.length + 1) / 2) 0 (cs.length + 1) commands) 0 (cs.length + 1)
          = c0 :: cs.map (fun p => p.2) := by
  obtain ⟨commands, e1, e2, _⟩ := collect_loop_spine c0 d0 l0 r0 h0 ht w cs.reverse
    (fun p hp => hr p (List.mem_reverse.mp hp)) (fun _ => CMD.null) 0 (by simpa using hN)
  refine ⟨commands, ?_, ?_⟩
  · simpa [pipe_tree] using e1
  · rw [reverse_loop_slice]
    simp only [List.length_reverse] at e2
    rw [e2]
    simp

/-- Every entry of the stage array is a valid stage when every command of
the pipeline is. -/
theorem pipeline_commands_valid (a : Nat → CMD) (n : Nat) (L : List CMD)
    (hs : slice a 0 n = L) (hv : ∀ c ∈ L, valid_stage c = true) :
    ∀ x, 0 ≤ x → x < n → valid_stage (a x) = true := by
  intro x _ hx
  have hlen : x < (slice a 0 n).length := by simpa [slice_length] using hx
  have hget := slice_get a 0 n x hlen
  rw [Nat.zero_add] at hget
  rw [← hget]
  apply hv
  rw [← hs]
  exact List.getElem_mem _

theorem update_exit_status_trace (s : Int) (w : World) :
    (update_exit_status s w).trace = w.trace ++ [Event.publish s] := by
  by_cases h : w.errQ.head?.getD 1 = 0 <;> simp [update_exit_status, setenv, sys, h]

/-- C10 (as the code behaves). For the tree of a pipeline
`c0 | c1 | ... | cn` of at most 1024 stages whose `PIPE` nodes all have a
right branch, the first two loops of `process_pipeline` build a stage array of
exactly `n + 1` entries holding `c0, c1, ..., cn` in this order.  When moreover
there are at most 1000 stages, every stage has a non-empty argument vector and
every `pipe` and `fork` call succeeds in the parent, the spawn loop returns
after the calls `pipe, fork, ..., pipe, fork, fork`: one `pipe` before the
`fork` of each stage but the last, `n` pipes in all. -/
theorem pipeline_stage_order (c0 : CMD) (d0 : CmdInfo) (l0 r0 : CMD) (h0 : c0 = .node d0 l0 r0)
    (ht : d0.type ≠ Tok.PIPE) (cs : List (CmdInfo × CMD)) (hr : ∀ p ∈ cs, p.2 ≠ CMD.null)
    (hN : cs.length + 1 ≤ 1024) (w : World) :
    ∃ commands, collect_loop (pipe_tree c0 cs) (fun _ => CMD.null) 0 w
        = .ret (commands, cs.length + 1) w
      ∧ slice (reverse_loop ((cs.length + 1) / 2) 0 (cs.length + 1) commands) 0 (cs.length + 1)
          = c0 :: cs.map (fun p => p.2)
      ∧ (cs.length + 1 ≤ 1000 → (∀ c ∈ c0 :: cs.map (fun p => p.2), valid_stage c = true) →
          ∀ pidsL erest frest, w.errQ = List.replicate cs.length 0 ++ erest →
          w.forkQ = pidsL ++ frest → pidsL.length = cs.length + 1 →
          (∀ p ∈ pidsL, p ≠ -1 ∧ p ≠ 0) →
          ∃ pids, spawn_loop (cs.length + 1) 0 (cs.length + 1)
              (reverse_loop ((cs.length + 1) / 2) 0 (cs.length + 1) commands) false
              (fun _ => 0) w
            = .ret pids { w with errQ := erest, forkQ := frest,
                                 trace := w.trace ++ spawn_events (cs.length + 1) }
          ∧ (spawn_events (cs.length + 1)).count Event.pipe = cs.length) := by
  obtain ⟨commands, e1, e2⟩ := pipeline_commands c0 d0 l0 r0 h0 ht cs hr hN w
  refine ⟨commands, e1, e2, ?_⟩
  intro hN' hv pidsL erest frest he hf hl hp
  obtain ⟨pids, e3, _, _⟩ := spawn_loop_ok (cs.length + 1) _ hN' (cs.length + 1) 0 false
    (fun _ => 0) w pidsL erest frest (by omega)
    (pipeline_commands_valid _ _ _ e2 hv) (by simpa using he) hf hl hp
  exact ⟨pids, e3, spawn_events_pipes cs.length⟩

/-- C10, instance: the stage array of `a | b | c` is `a, b, c`, and with two
successful `pipe` calls and three successful `fork` calls the spawn loop
creates two pipes. -/
theorem pipeline_stage_order_witness :
    ∃ commands, collect_loop abc_pipeline (fun _ => CMD.null) 0
        { World.start with errQ := [0, 0], forkQ := [11, 12, 13] }
        = .ret (commands, 3) { World.start with errQ := [0, 0], forkQ := [11, 12, 13] }
      ∧ slice (reverse_loop (3 / 2) 0 3 commands) 0 3
          = [CMD.simple ["a"], CMD.simple ["b"], CMD.simple ["c"]]
      ∧ ∃ pids, spawn_loop 3 0 3 (reverse_loop (3 / 2) 0 3 commands) false (fun _ => 0)
            { World.start with errQ := [0, 0], forkQ := [11, 12, 13] }
          = .ret pids { World.start with trace := spawn_events 3 }
        ∧ (spawn_events 3).count Event.pipe = 2 := by
  obtain ⟨commands, e1, e2, e3⟩ := pipeline_stage_order (CMD.simple ["a"]) _ _ _ rfl
    (by decide) [(pipe_info, CMD.simple ["b"]), (pipe_info, CMD.simple ["c"])]
    (by decide) (by decide) { World.start with errQ := [0, 0], forkQ := [11, 12, 13] }
  exact ⟨commands, e1, e2,
    e3 (by decide) (by decide) [11, 12, 13] [] [] rfl rfl rfl (by decide)⟩

/-- C10, counterexample. In `a | b | c` the first `pipe` call succeeds and the
first `fork` fails: `process_pipeline` ends the shell with `exit(EXIT_FAILURE)`
after creating one pipe, not two.  The same happens without any failing call
when the first stage has an empty argument vector, as in `(a) | b | c`. -/
theorem pipeline_fork_failure_stops_pipes :
    (process_pipeline WEXITSTATUS abc_pipeline
        { World.start with errQ := [0], forkQ := [-1] }).val = none
    ∧ (process_pipeline WEXITSTATUS abc_pipeline
        { World.start with errQ := [0], forkQ := [-1] }).world.trace
      = [Event.pipe, Event.fork]
    ∧ (process_pipeline WEXITSTATUS
        (pipe_tree (CMD.mk Tok.SUBCMD [] (CMD.simple ["a"]) .null)
          [(pipe_info, CMD.simple ["b"]), (pipe_info, CMD.simple ["c"])])
        { World.start with errQ := [0, 0], forkQ := [11, 12, 13] }).val = none
    ∧ (process_pipeline WEXITSTATUS
        (pipe_tree (CMD.mk Tok.SUBCMD [] (CMD.simple ["a"]) .null)
          [(pipe_info, CMD.simple ["b"]), (pipe_info, CMD.simple ["c"])])
        { World.start with errQ := [0, 0], forkQ := [11, 12, 13] }).world.trace
      = [Event.pipe] := by
  decide

/-! ## Pipelines: reported status -/

/-- The status reported by a pipeline of at most 1000 stages when every stage
is spawned and every wait succeeds: `process_pipeline` returns and publishes
the status of the last stage, in left-to-right order, whose status is
non-zero, and `0` when all are zero. -/
theorem process_pipeline_last_failure (STATUS : Int → Int) (c0 : CMD) (d0 : CmdInfo)
    (l0 r0 : CMD) (h0 : c0 = .node d0 l0 r0) (ht : d0.type ≠ Tok.PIPE)
    (cs : List (CmdInfo × CMD)) (hN : cs.length + 1 ≤ 1000)
    (hv : ∀ c ∈ c0 :: cs.map (fun p => p.2), valid_stage c = true)
    (w : World) (pidsL erest frest : List Int) (answers wrest : List (Int × Int))
    (he : w.errQ = List.replicate cs.length 0 ++ erest)
    (hf : w.forkQ = pidsL ++ frest) (hl : pidsL.length = cs.length + 1)
    (hp : ∀ p ∈ pidsL, p ≠ -1 ∧ p ≠ 0)
    (hq : w.waitQ = answers ++ wrest) (hal : answers.length = cs.length + 1)
    (ha : ∀ a ∈ answers, a.1 ≠ -1) :
    ∃ s w1, process_pipeline STATUS (pipe_tree c0 cs) w = .ret s w1
      ∧ w1.trace = w.trace ++ spawn_events (cs.length + 1)
          ++ pidsL.map (fun p => Event.waitpid p false) ++ [Event.publish s]
      ∧ (∀ k (hk : k < answers.length), STATUS (answers[k]).2 ≠ 0 →
          (∀ j (hj : j < answers.length), k < j → STATUS (answers[j]).2 = 0) →
          s = STATUS (answers[k]).2)
      ∧ ((∀ a ∈ answers, STATUS a.2 = 0) → s = 0) := by
  have hr : ∀ p ∈ cs, p.2 ≠ CMD.null := by
    intro p hp' hnull
    have := hv p.2 (List.mem_cons_of_mem _ (List.mem_map_of_mem _ hp'))
    rw [hnull] at this
    simp [valid_stage] at this
  obtain ⟨commands, e1, e2⟩ := pipeline_commands c0 d0 l0 r0 h0 ht cs hr (by omega) w
  obtain ⟨pids, e3, e4, _⟩ := spawn_loop_ok (cs.length + 1) _ hN (cs.length + 1) 0 false
    (fun _ => 0) w pidsL erest frest (by omega)
    (pipeline_commands_valid _ _ _ e2 hv) (by simpa using he) hf hl hp
  have e5 := wait_loop_ok STATUS (cs.length + 1) 0 pids 0
    { w with errQ := erest, forkQ := frest,
             trace := w.trace ++ spawn_events (cs.length + 1) }
    answers wrest hq hal ha
  have hne : pipe_tree c0 cs ≠ CMD.null := pipe_tree_ne_null c0 d0 l0 r0 h0 _
  refine ⟨List.foldl (fun acc s => if s ≠ 0 then s else acc) 0
      (answers.map (fun a => STATUS a.2)),
    update_exit_status (List.foldl (fun acc s => if s ≠ 0 then s else acc) 0
      (answers.map (fun a => STATUS a.2)))
      { w with errQ := erest, forkQ := frest, waitQ := wrest,
               trace := w.trace ++ spawn_events (cs.length + 1)
                  ++ (slice pids 0 (cs.length + 1)).map (fun p => Event.waitpid p false) },
    ?_, ?_, ?_, ?_⟩
  · simp only [process_pipeline, hne, if_false, e1, Res.bind, e3, e5]
  · rw [update_exit_status_trace, e4]
  · intro k hk hne' hlater
    have := (foldl_last_nonzero (answers.map (fun a => STATUS a.2)) 0).1 k
      (by simpa using hk) (by simpa using hne')
      (fun j hj hkj => by simpa using hlater j (by simpa using hj) hkj)
    simpa using this
  · intro hz
    exact (foldl_last_nonzero (answers.map (fun a => STATUS a.2)) 0).2
      (fun s hs => by
        obtain ⟨a, ha', rfl⟩ := List.mem_map.mp hs
        exact hz a ha')

/-- Instance of the aggregation rule, with `WEXITSTATUS` taken for `STATUS`:
in `a | b | c` with exit statuses `3`, `2`, `0` the pipeline reports `2`, the
status of the failing middle stage. -/
theorem process_pipeline_last_failure_instance :
    (process_pipeline WEXITSTATUS abc_pipeline
        { World.start with errQ := [0, 0], forkQ := [11, 12, 13],
                           waitQ := [(11, 768), (12, 512), (13, 0)] }).val = some 2
    ∧ published (process_pipeline WEXITSTATUS abc_pipeline
        { World.start with errQ := [0, 0], forkQ := [11, 12, 13],
                           waitQ := [(11, 768), (12, 512), (13, 0)] }).world.trace = [2] := by
  decide

theorem bind_faulted {α β : Type} (r : Res α) (f : α → World → Res β)
    (h : r.faulted = true) : (r.bind f).faulted = true := by
  cases r with
  | fault w1 => rfl
  | ret v w1 => simp [Res.faulted] at h
  | exit c w1 => simp [Res.faulted] at h
  | exec w1 => simp [Res.faulted] at h

/-- A pipeline of 1001 to 1024 stages, all valid and all spawned
successfully, makes `process_pipeline` write outside `pids[1000]`. -/
theorem process_pipeline_overflow_of_long (STATUS : Int → Int) (c0 : CMD) (d0 : CmdInfo)
    (l0 r0 : CMD) (h0 : c0 = .node d0 l0 r0) (ht : d0.type ≠ Tok.PIPE)
    (cs : List (CmdInfo × CMD)) (hlo : 1000 < cs.length + 1) (hhi : cs.length + 1 ≤ 1024)
    (hv : ∀ c ∈ c0 :: cs.map (fun p => p.2), valid_stage c = true)
    (w : World) (pidsL erest frest : List Int)
    (he : w.errQ = List.replicate cs.length 0 ++ erest)
    (hf : w.forkQ = pidsL ++ frest) (hl : pidsL.length = cs.length + 1)
    (hp : ∀ p ∈ pidsL, p ≠ -1 ∧ p ≠ 0) :
    (process_pipeline STATUS (pipe_tree c0 cs) w).faulted = true := by
  have hr : ∀ p ∈ cs, p.2 ≠ CMD.null := by
    intro p hp' hnull
    have := hv p.2 (List.mem_cons_of_mem _ (List.mem_map_of_mem _ hp'))
    rw [hnull] at this
    simp [valid_stage] at this
  obtain ⟨commands, e1, e2⟩ := pipeline_commands c0 d0 l0 r0 h0 ht cs hr hhi w
  have hfault := spawn_loop_overflow (cs.length + 1) _ hlo (cs.length + 1) 0 false
    (fun _ => 0) w pidsL erest frest (by omega) (by omega)
    (pipeline_commands_valid _ _ _ e2 hv) (by simpa using he) hf hl hp
  have hne : pipe_tree c0 cs ≠ CMD.null := pipe_tree_ne_null c0 d0 l0 r0 h0 _
  simp only [process_pipeline, hne, if_false, e1]
  simp only [Res.bind]
  exact bind_faulted _ _ hfault

/-- C3, failing input. For the pipeline of 1001 commands, all spawned
successfully, `process_pipeline` stores the pid of stage 1000 outside the
array `pids[1000]`: its behaviour is undefined and no status is reported. -/
theorem process_pipeline_overflow :
    (process_pipeline WEXITSTATUS long_pipeline long_pipeline_world).faulted = true := by
  have hv : ∀ c ∈ CMD.simple ["true"] :: (List.replicate 1000
      ((⟨Tok.PIPE, [], [], Tok.NONE, "", Tok.NONE, ""⟩ : CmdInfo),
        CMD.simple ["true"])).map (fun p => p.2), valid_stage c = true := by
    intro c hc
    have : c = CMD.simple ["true"] := by
      rcases List.mem_cons.mp hc with h | h
      · exact h
      · obtain ⟨p, hp, rfl⟩ := List.mem_map.mp h
        rw [List.eq_of_mem_replicate hp]
    rw [this]
    decide
  exact process_pipeline_overflow_of_long WEXITSTATUS (CMD.simple ["true"]) _ _ _ rfl
    (by decide) _ (by rw [List.length_replicate]; norm_num)
    (by rw [List.length_replicate]; norm_num) hv long_pipeline_world
    ((List.range 1001).map (fun (i : Nat) => (i : Int) + 2)) [] []
    (by simp only [long_pipeline_world, List.length_replicate, List.append_nil])
    (by simp only [long_pipeline_world, List.append_nil])
    (by rw [List.length_map, List.length_range, List.length_replicate])
    (by
      intro p hp
      obtain ⟨i, _, rfl⟩ := List.mem_map.mp hp
      constructor <;> (dsimp only; omega))

/-! ## Range of the statuses -/

theorem published_append (a b : List Event) :
    published (a ++ b) = published a ++ published b := by
  simp [published, List.filterMap_append]

theorem published_waits (ps : List Int) :
    published (ps.map (fun p => Event.waitpid p true)) = [] := by
  induction ps with
  | nil => rfl
  | cons p t ih => simp [published]

theorem reap_loop_env (k : Nat) : ∀ (i : Nat) (w : World), (reap_loop k i w).env = w.env := by
  induction k with
  | zero => intro i w; rfl
  | succ k ih =>
    intro i w
    simp only [reap_loop]
    split_ifs
    · rw [ih]; rfl
    · rw [ih]; rfl
    · rfl

/-- Reaping publishes nothing and leaves the environment alone. -/
theorem reap_publishes_nothing (w : World) :
    published (reap_background_processes w).trace = published w.trace
    ∧ getenv "?" (reap_background_processes w) = getenv "?" w := by
  constructor
  · have h := (reap_loop_spec w.bg_count 0 w (by omega)).2.2.1
    simp only [reap_background_processes]
    rw [h, published_append, published_waits]
    simp
  · simp only [getenv, reap_background_processes, reap_loop_env]

/-- The built-in `cd a b` fails with status `1` in every state, without any
system call. -/
theorem process_cd_usage (STATUS : Int → Int) (w : World) :
    process STATUS (CMD.simple ["cd", "a", "b"]) w
      = .ret 1 (update_exit_status 1 (reap_background_processes w)) := by
  rfl

theorem bind_of_ret {α β : Type} (r : Res α) (f : α → World → Res β) (v : α) (w1 : World)
    (h : r = .ret v w1) : r.bind f = f v w1 := by
  subst h; rfl

theorem bind_of_no_val {α β : Type} (r : Res α) (f : α → World → Res β)
    (h : r.val = none) : (r.bind f).val = none ∧ (r.bind f).world = r.world := by
  cases r with
  | ret v w1 => simp [Res.val] at h
  | exit c w1 => exact ⟨rfl, rfl⟩
  | exec w1 => exact ⟨rfl, rfl⟩
  | fault w1 => exact ⟨rfl, rfl⟩

theorem update_exit_status_queues (s : Int) (w : World) :
    (update_exit_status s w).forkQ = w.forkQ ∧ (update_exit_status s w).waitQ = w.waitQ
    ∧ (update_exit_status s w).chdirQ = w.chdirQ := by
  by_cases h : w.errQ.head?.getD 1 = 0 <;> simp [update_exit_status, setenv, sys, h]

/-- C1. Let `l` be evaluated from the state left by the reaping step of the
node.  If it returns status `s` in state `w1`, a `SEP_AND` node evaluates `r`
from `w1` and ends as `r` does when `s = 0`, and otherwise returns `s` after
one publication of `s`, with no `fork`, `waitpid` or `chdir` (so `r` is not
evaluated); a `SEP_OR` node does the same with the test reversed.  If `l` does
not return, the node ends where `l` ended and `r` is not evaluated.  In
particular, for every `r`: after the absent command (status `0`) `&&`
evaluates `r` and `||` returns `0` without it; after the failing built-in
`cd a b` (status `1`) `&&` returns `1` without `r` and `||` evaluates `r`. -/
theorem process_and_or (STATUS : Int → Int) (d : CmdInfo) (l r : CMD) (w : World) :
    (∀ s w1, process STATUS l (reap_background_processes w) = .ret s w1 →
        process STATUS (.node { d with type := Tok.SEP_AND } l r) w
          = (if s = 0 then process STATUS r w1 else .ret s (update_exit_status s w1))
        ∧ process STATUS (.node { d with type := Tok.SEP_OR } l r) w
          = (if s ≠ 0 then process STATUS r w1 else .ret s (update_exit_status s w1))
        ∧ (update_exit_status s w1).trace = w1.trace ++ [Event.publish s]
        ∧ (update_exit_status s w1).forkQ = w1.forkQ
        ∧ (update_exit_status s w1).waitQ = w1.waitQ
        ∧ (update_exit_status s w1).chdirQ = w1.chdirQ)
    ∧ ((process STATUS l (reap_background_processes w)).val = none →
        (process STATUS (.node { d with type := Tok.SEP_AND } l r) w).val = none
        ∧ (process STATUS (.node { d with type := Tok.SEP_AND } l r) w).world
            = (process STATUS l (reap_background_processes w)).world
        ∧ (process STATUS (.node { d with type := Tok.SEP_OR } l r) w).val = none
        ∧ (process STATUS (.node { d with type := Tok.SEP_OR } l r) w).world
            = (process STATUS l (reap_background_processes w)).world)
    ∧ process STATUS (.node { d with type := Tok.SEP_AND } .null r) w
        = process STATUS r (reap_background_processes (reap_background_processes w))
    ∧ process STATUS (.node { d with type := Tok.SEP_OR } .null r) w
        = .ret 0 (update_exit_status 0
            (reap_background_processes (reap_background_processes w)))
    ∧ process STATUS (.node { d with type := Tok.SEP_AND } (CMD.simple ["cd", "a", "b"]) r) w
        = .ret 1 (update_exit_status 1 (update_exit_status 1
            (reap_background_processes (reap_background_processes w))))
    ∧ process STATUS (.node { d with type := Tok.SEP_OR } (CMD.simple ["cd", "a", "b"]) r) w
        = process STATUS r (update_exit_status 1
            (reap_background_processes (reap_background_processes w))) := by
  have hand : ∀ l' : CMD, process STATUS (.node { d with type := Tok.SEP_AND } l' r) w
      = (process STATUS l' (reap_background_processes w)).bind (fun status w1 =>
          if status = 0 then process STATUS r w1
          else .ret status (update_exit_status status w1)) := by
    intro l'; simp [process]
  have hor : ∀ l' : CMD, process STATUS (.node { d with type := Tok.SEP_OR } l' r) w
      = (process STATUS l' (reap_background_processes w)).bind (fun status w1 =>
          if status ≠ 0 then process STATUS r w1
          else .ret status (update_exit_status status w1)) := by
    intro l'; simp [process]
  refine ⟨?_, ?_, ?_, ?_, ?_, ?_⟩
  · intro s w1 hl
    obtain ⟨q1, q2, q3⟩ := update_exit_status_queues s w1
    refine ⟨?_, ?_, update_exit_status_trace s w1, q1, q2, q3⟩
    · rw [hand, bind_of_ret _ _ s w1 hl]
    · rw [hor, bind_of_ret _ _ s w1 hl]
  · intro hl
    rw [hand, hor]
    exact ⟨(bind_of_no_val _ _ hl).1, (bind_of_no_val _ _ hl).2,
      (bind_of_no_val _ _ hl).1, (bind_of_no_val _ _ hl).2⟩
  · rw [hand, bind_of_ret _ _ 0 (reap_background_processes (reap_background_processes w))
      (by simp [process])]
    simp
  · rw [hor, bind_of_ret _ _ 0 (reap_background_processes (reap_background_processes w))
      (by simp [process])]
    simp
  · rw [hand, bind_of_ret _ _ 1 _ (process_cd_usage STATUS _)]
    simp
  · rw [hor, bind_of_ret _ _ 1 _ (process_cd_usage STATUS _)]
    simp

/-- C1, instance: in `false && true` the command `false` exits with status
`1`, the node returns `1` after publishing it and `true` is never forked; in
`false || true` both commands are forked, in this order, and the node returns
the status `0` of `true`. -/
theorem process_and_or_witness :
    process WEXITSTATUS (CMD.mk Tok.SEP_AND [] (CMD.simple ["false"]) (CMD.simple ["true"]))
        { World.start with forkQ := [7], waitQ := [(7, 256)] }
      = .ret 1 (update_exit_status 1
          { World.start with
              trace := [Event.fork, Event.waitpid 7 false, Event.publish 1] })
    ∧ (process WEXITSTATUS
        (CMD.mk Tok.SEP_AND [] (CMD.simple ["false"]) (CMD.simple ["true"]))
        { World.start with forkQ := [7], waitQ := [(7, 256)] }).world.trace
      = [Event.fork, Event.waitpid 7 false, Event.publish 1, Event.publish 1]
    ∧ (process WEXITSTATUS
        (CMD.mk Tok.SEP_OR [] (CMD.simple ["false"]) (CMD.simple ["true"]))
        { World.start with forkQ := [7, 8], waitQ := [(7, 256), (8, 0)] }).val = some 0
    ∧ (process WEXITSTATUS
        (CMD.mk Tok.SEP_OR [] (CMD.simple ["false"]) (CMD.simple ["true"]))
        { World.start with forkQ := [7, 8], waitQ := [(7, 256), (8, 0)] }).world.trace
      = [Event.fork, Event.waitpid 7 false, Event.publish 1,
         Event.fork, Event.waitpid 8 false, Event.publish 0] :=
  ⟨((process_and_or WEXITSTATUS pipe_info (CMD.simple ["false"]) (CMD.simple ["true"])
        { World.start with forkQ := [7], waitQ := [(7, 256)] }).1 1
        { World.start with trace := [Event.fork, Event.waitpid 7 false, Event.publish 1] }
        rfl).1,
   by decide, by decide, by decide⟩

/-- C2 (as the code behaves). Let `l` be evaluated from the state left by the
reaping step of a `SEP_END` node.  If it returns (with any status) in state
`w1`, the node evaluates `r` from `w1` and ends as `r` does; when `r` is
absent the node returns `0` after a reaping step that publishes nothing and
leaves `?` as `l` left it.  If `l` does not return, the node ends where `l`
ended.  In particular `cd a b ;` returns `0` although `cd a b` has status `1`,
and after the absent command the node evaluates `r`. -/
theorem process_sequence (STATUS : Int → Int) (d : CmdInfo) (l r : CMD) (w : World) :
    (∀ s w1, process STATUS l (reap_background_processes w) = .ret s w1 →
        process STATUS (.node { d with type := Tok.SEP_END } l r) w = process STATUS r w1
        ∧ process STATUS (.node { d with type := Tok.SEP_END } l .null) w
            = .ret 0 (reap_background_processes w1)
        ∧ published (reap_background_processes w1).trace = published w1.trace
        ∧ getenv "?" (reap_background_processes w1) = getenv "?" w1)
    ∧ ((process STATUS l (reap_background_processes w)).val = none →
        (process STATUS (.node { d with type := Tok.SEP_END } l r) w).val = none
        ∧ (process STATUS (.node { d with type := Tok.SEP_END } l r) w).world
            = (process STATUS l (reap_background_processes w)).world)
    ∧ process STATUS (.node { d with type := Tok.SEP_END } .null r) w
        = process STATUS r (reap_background_processes (reap_background_processes w))
    ∧ process STATUS (.node { d with type := Tok.SEP_END } (CMD.simple ["cd", "a", "b"]) .null) w
        = .ret 0 (reap_background_processes (update_exit_status 1
            (reap_background_processes (reap_background_processes w)))) := by
  have hseq : ∀ l' r' : CMD, process STATUS (.node { d with type := Tok.SEP_END } l' r') w
      = (process STATUS l' (reap_background_processes w)).bind (fun _ w1 =>
          process STATUS r' w1) := by
    intro l' r'; simp [process]
  refine ⟨?_, ?_, ?_, ?_⟩
  · intro s w1 hl
    refine ⟨?_, ?_, (reap_publishes_nothing w1).1, (reap_publishes_nothing w1).2⟩
    · rw [hseq, bind_of_ret _ _ s w1 hl]
    · rw [hseq, bind_of_ret _ _ s w1 hl]
      simp [process]
  · intro hl
    rw [hseq]
    exact bind_of_no_val _ _ hl
  · rw [hseq, bind_of_ret _ _ 0 (reap_background_processes (reap_background_processes w))
      (by simp [process])]
  · rw [hseq, bind_of_ret _ _ 1 _ (process_cd_usage STATUS _)]
    simp [process]

/-- C2, instance: `false ; true` forks `false`, then `true`, and returns the
status `0` of `true`; `false ;` returns `0` from the state `false` left, in
which the last published status is `1`. -/
theorem process_sequence_witness :
    process WEXITSTATUS (CMD.mk Tok.SEP_END [] (CMD.simple ["false"]) .null)
        { World.start with forkQ := [7], waitQ := [(7, 256)] }
      = .ret 0 (reap_background_processes
          { World.start with
              trace := [Event.fork, Event.waitpid 7 false, Event.publish 1] })
    ∧ published (process WEXITSTATUS (CMD.mk Tok.SEP_END [] (CMD.simple ["false"]) .null)
        { World.start with forkQ := [7], waitQ := [(7, 256)] }).world.trace = [1]
    ∧ (process WEXITSTATUS
        (CMD.mk Tok.SEP_END [] (CMD.simple ["false"]) (CMD.simple ["true"]))
        { World.start with forkQ := [7, 8], waitQ := [(7, 256), (8, 0)] }).val = some 0
    ∧ (process WEXITSTATUS
        (CMD.mk Tok.SEP_END [] (CMD.simple ["false"]) (CMD.simple ["true"]))
        { World.start with forkQ := [7, 8], waitQ := [(7, 256), (8, 0)] }).world.trace
      = [Event.fork, Event.waitpid 7 false, Event.publish 1,
         Event.fork, Event.waitpid 8 false, Event.publish 0] :=
  ⟨((process_sequence WEXITSTATUS pipe_info (CMD.simple ["false"]) .null
        { World.start with forkQ := [7], waitQ := [(7, 256)] }).1 1
        { World.start with trace := [Event.fork, Event.waitpid 7 false, Event.publish 1] }
        rfl).2.1,
   by decide, by decide, by decide⟩

/-- C2, counterexample. `false ;` with a trailing separator: the left command
exits with status `1`, yet the sequence node returns `0`. -/
theorem process_sequence_absent_right_returns_zero :
    (process WEXITSTATUS (CMD.simple ["false"])
        { World.start with forkQ := [7], waitQ := [(7, 256)] }).val = some 1
    ∧ (process WEXITSTATUS (CMD.mk Tok.SEP_END [] (CMD.simple ["false"]) .null)
        { World.start with forkQ := [7], waitQ := [(7, 256)] }).val = some 0 := by
  decide

end Shell
